import Mathlib

/-! Shallow embedding of the nolan coordination scripts: the workflow router
(`src/app/scripts/workflow-router.py`), the project status helper
(`src/app/scripts/project-status-helper.py`), the team config validator
(`src/scripts/validate-team-config.py`) and the transcript service session
manager (`src/services/transcript-service/.../session_manager.py`), with
theorems settling the specification's claims about them.

Filesystem, environment and YAML-parsing stages are modelled by passing their
results (the parsed config, existence flags) as explicit arguments; the
routing / validation / reporting computations themselves are translated
statement by statement from the Python source. -/

/-- Python truthiness of an optional string: `None` and `""` are falsy. -/
def truthy : Option String → Bool
  | some s => s != ""
  | none => false

/-- Models `output_result`-style conditional inclusion (`if next_phase: ...`):
a falsy value is left out of the emitted JSON document. -/
def truthyOpt (o : Option String) : Option String := if truthy o then o else none

/-- Python `str.lower()`.  Only ASCII letters are lowered here; the Python
function also lowers non-ASCII letters, which no claim depends on. -/
def strLower (s : String) : String := String.mk (s.data.map Char.toLower)

/-- Python `f"{x}"` for an `Optional[str]`: `None` prints as `"None"`. -/
def pyShow : Option String → String
  | some s => s
  | none => "None"

/-- Python `repr` of a plain string (as used when a list is formatted). -/
def pyStrRepr (s : String) : String := "'" ++ s ++ "'"

/-- Python `f"{xs}"` for a list of strings. -/
def pyListRepr (l : List String) : String :=
  "[" ++ String.intercalate ", " (l.map pyStrRepr) ++ "]"

/-- The character list of a concatenation, for reasoning about the error
strings the scripts build by interpolation. -/
theorem str_data_append (s t : String) : (s ++ t).data = s.data ++ t.data := rfl

/-- A concatenation whose left part is nonempty is not the empty string. -/
theorem append_ne_empty_left (s t : String) (h : 0 < s.length) : s ++ t ≠ "" := by
  intro he
  have hl := congrArg String.length he
  rw [String.length_append] at hl
  simp only [String.length_empty] at hl
  omega

/-- Length of a concatenation is positive when the left part's is. -/
theorem append_left_len (s t : String) (h : 0 < s.length) : 0 < (s ++ t).length := by
  rw [String.length_append]
  omega

/-- A truthy optional string passes through the JSON field filter unchanged. -/
theorem truthyOpt_of_truthy (o : Option String) (h : truthy o = true) :
    truthyOpt o = o := by
  simp [truthyOpt, h]

namespace WorkflowRouter

/-- One element of `team.workflow.phases` as the router reads it:
`phase.get('name', '')` and `phase.get('owner')`. -/
structure Phase where
  name : Option String
  owner : Option String
deriving DecidableEq, Inhabited

/-- The loaded team config, reduced to the fields `main` reads:
`team.get('schema_version', 1)` (the default 1 is the caller's value here)
and `team.workflow.phases`. -/
structure TeamConfig where
  schema_version : Int
  phases : List Phase
deriving DecidableEq

/-- The JSON document printed on stdout. -/
structure RouterOutput where
  action : String
  reason : String
  next_phase : Option String
  next_agent : Option String
deriving DecidableEq

/-- `output_result`: JSON on stdout, exit code 0; `next_phase` / `next_agent`
keys are included only when truthy. -/
def output_result (action : String) (next_phase next_agent : Option String)
    (reason : String) : RouterOutput × Nat :=
  (⟨action, reason, truthyOpt next_phase, truthyOpt next_agent⟩, 0)

/-- `output_error`: escalate JSON on stdout, exit code 1. -/
def output_error (reason : String) : RouterOutput × Nat :=
  (⟨"escalate", reason, none, none⟩, 1)

/-- `phase.get('name', '')`. -/
def phaseNameD (p : Phase) : String := p.name.getD ""

/-- The `for i, phase in enumerate(phases)` search for the first phase whose
name matches case-insensitively, with its index. -/
def findPhaseAux (nm : String) : List Phase → Nat → Option (Nat × Phase)
  | [], _ => none
  | p :: rest, i =>
      if strLower (phaseNameD p) = strLower nm then some (i, p)
      else findPhaseAux nm rest (i + 1)

/-- The phase lookup of `main` (lines 164-171 of workflow-router.py). -/
def findCurrent (phases : List Phase) (nm : String) : Option (Nat × Phase) :=
  findPhaseAux nm phases 0

/-- The `# Route based on decision` block of `main` (lines 177-219 of
workflow-router.py), given the index of the matched current phase. -/
def route (cfg : TeamConfig) (current_phase_name decision : String)
    (current_index : Nat) : RouterOutput × Nat :=
  if decision = "rejected" then
    if current_index = 0 then
      output_result "escalate" none none
        ("Phase '" ++ current_phase_name ++ "' rejected but it's the first phase")
    else
      let prev_phase := cfg.phases.getD (current_index - 1) ⟨none, none⟩
      if truthy prev_phase.owner = false then
        output_error ("Previous phase '" ++ pyShow prev_phase.name ++
          "' has no owner defined")
      else
        output_result "assign" prev_phase.name prev_phase.owner
          ("Rejected from " ++ current_phase_name ++ ", routing back to " ++
            pyShow prev_phase.name)
  else
    if cfg.phases.length - 1 ≤ current_index then
      output_result "complete" none none
        ("Phase '" ++ current_phase_name ++ "' is terminal (last in sequence)")
    else
      let next_phase := cfg.phases.getD (current_index + 1) ⟨none, none⟩
      if truthy next_phase.owner = false then
        output_error ("Next phase '" ++ pyShow next_phase.name ++
          "' has no owner defined")
      else
        output_result "assign" next_phase.name next_phase.owner
          ("Auto-progressing from " ++ current_phase_name ++ " to " ++
            pyShow next_phase.name)

/-- `main` of workflow-router.py from the decision check on, given the loaded
team config.  Returns the JSON document and the process exit code. -/
def main (cfg : TeamConfig) (current_phase_name decision : String) :
    RouterOutput × Nat :=
  if decision ≠ "approved" ∧ decision ≠ "rejected" then
    output_error ("Invalid decision: " ++ decision ++ ". Must be 'approved' or 'rejected'.")
  else if cfg.schema_version < 2 then
    output_result "escalate" none none
      ("Team config schema_version is " ++ toString cfg.schema_version ++
        " (requires >= 2 for auto-routing)")
  else if cfg.phases = [] then
    output_error "No phases defined in team config"
  else
    match findCurrent cfg.phases current_phase_name with
    | none =>
        output_error ("Phase '" ++ current_phase_name ++ "' not found. Available: " ++
          pyListRepr (cfg.phases.map phaseNameD))
    | some (current_index, _) =>
        route cfg current_phase_name decision current_index

/-- The index a successful phase lookup returns is a position in the list. -/
theorem findPhaseAux_index_lt (nm : String) :
    ∀ (l : List Phase) (k i : Nat) (p : Phase),
      findPhaseAux nm l k = some (i, p) → k ≤ i ∧ i - k < l.length := by
  intro l
  induction l with
  | nil => intro k i p h; simp [findPhaseAux] at h
  | cons q rest ih =>
      intro k i p h
      by_cases hq : strLower (phaseNameD q) = strLower nm
      · rw [findPhaseAux, if_pos hq] at h
        simp only [Option.some.injEq, Prod.mk.injEq] at h
        obtain ⟨hk, -⟩ := h
        subst hk
        simp only [List.length_cons]
        omega
      · rw [findPhaseAux, if_neg hq] at h
        have := ih (k + 1) i p h
        refine ⟨by omega, ?_⟩
        simp only [List.length_cons]
        omega

/-- A matched current phase lies inside the phase list. -/
theorem findCurrent_lt (phases : List Phase) (nm : String) (i : Nat) (p : Phase)
    (h : findCurrent phases nm = some (i, p)) : i < phases.length := by
  have := findPhaseAux_index_lt nm phases 0 i p h
  omega

/-- When the guards pass and the phase is found, `main` runs the routing
block at the found index. -/
theorem main_eval_found (cfg : TeamConfig) (nm d : String) (i : Nat) (p : Phase)
    (hd : d = "approved" ∨ d = "rejected")
    (hs : 2 ≤ cfg.schema_version)
    (hfind : findCurrent cfg.phases nm = some (i, p)) :
    main cfg nm d = route cfg nm d i := by
  have h1 : ¬(d ≠ "approved" ∧ d ≠ "rejected") := by
    rcases hd with h | h <;> simp [h]
  have h2 : ¬(cfg.schema_version < 2) := not_lt.mpr hs
  have h3 : ¬(cfg.phases = []) := by
    have hlt := findCurrent_lt _ _ _ _ hfind
    intro h0
    rw [h0] at hlt
    simp at hlt
  unfold main
  rw [if_neg h1, if_neg h2, if_neg h3, hfind]

/-- Routing an approval at or past the last index completes the workflow. -/
theorem route_approved_last (cfg : TeamConfig) (nm : String) (i : Nat)
    (h : cfg.phases.length - 1 ≤ i) :
    route cfg nm "approved" i = output_result "complete" none none
      ("Phase '" ++ nm ++ "' is terminal (last in sequence)") := by
  unfold route
  rw [if_neg (by decide), if_pos h]

/-- Routing an approval below the last index assigns the next phase when its
owner is truthy. -/
theorem route_approved_next (cfg : TeamConfig) (nm : String) (i : Nat)
    (h : ¬(cfg.phases.length - 1 ≤ i))
    (h2 : truthy (cfg.phases.getD (i + 1) ⟨none, none⟩).owner = true) :
    route cfg nm "approved" i = output_result "assign"
      (cfg.phases.getD (i + 1) ⟨none, none⟩).name
      (cfg.phases.getD (i + 1) ⟨none, none⟩).owner
      ("Auto-progressing from " ++ nm ++ " to " ++
        pyShow (cfg.phases.getD (i + 1) ⟨none, none⟩).name) := by
  unfold route
  rw [if_neg (by decide), if_neg h, if_neg (by rw [h2]; simp)]

/-- Routing a rejection at index 0 escalates (successfully, exit code 0). -/
theorem route_rejected_first (cfg : TeamConfig) (nm : String) :
    route cfg nm "rejected" 0 = output_result "escalate" none none
      ("Phase '" ++ nm ++ "' rejected but it's the first phase") := by
  unfold route
  rw [if_pos rfl, if_pos rfl]

/-- Routing a rejection above index 0 assigns the previous phase when its
owner is truthy. -/
theorem route_rejected_prev (cfg : TeamConfig) (nm : String) (i : Nat)
    (h : i ≠ 0)
    (h2 : truthy (cfg.phases.getD (i - 1) ⟨none, none⟩).owner = true) :
    route cfg nm "rejected" i = output_result "assign"
      (cfg.phases.getD (i - 1) ⟨none, none⟩).name
      (cfg.phases.getD (i - 1) ⟨none, none⟩).owner
      ("Rejected from " ++ nm ++ ", routing back to " ++
        pyShow (cfg.phases.getD (i - 1) ⟨none, none⟩).name) := by
  unfold route
  rw [if_pos rfl, if_neg h, if_neg (by rw [h2]; simp)]

/-- The phase lookup depends on the phase-name argument only through its
lowercase form. -/
theorem findPhaseAux_congr (n₁ n₂ : String) (h : strLower n₁ = strLower n₂) :
    ∀ (l : List Phase) (k : Nat), findPhaseAux n₁ l k = findPhaseAux n₂ l k := by
  intro l
  induction l with
  | nil => intro k; rfl
  | cons q rest ih =>
      intro k
      rw [findPhaseAux, findPhaseAux, h, ih]

/-- `findCurrent` is case-insensitive in the phase-name argument. -/
theorem findCurrent_congr (n₁ n₂ : String) (h : strLower n₁ = strLower n₂)
    (phases : List Phase) : findCurrent phases n₁ = findCurrent phases n₂ := by
  unfold findCurrent
  exact findPhaseAux_congr n₁ n₂ h phases 0

/-- All routing output except the `reason` text is independent of how the
phase-name argument was spelled. -/
theorem route_components (cfg : TeamConfig) (n₁ n₂ d : String) (i : Nat) :
    (route cfg n₁ d i).1.action = (route cfg n₂ d i).1.action ∧
    (route cfg n₁ d i).1.next_phase = (route cfg n₂ d i).1.next_phase ∧
    (route cfg n₁ d i).1.next_agent = (route cfg n₂ d i).1.next_agent ∧
    (route cfg n₁ d i).2 = (route cfg n₂ d i).2 := by
  unfold route
  by_cases hd : d = "rejected"
  · rw [if_pos hd, if_pos hd]
    by_cases h0 : i = 0
    · rw [if_pos h0, if_pos h0]
      exact ⟨rfl, rfl, rfl, rfl⟩
    · rw [if_neg h0, if_neg h0]
      by_cases ho : truthy (cfg.phases.getD (i - 1) ⟨none, none⟩).owner = false
      · rw [if_pos ho, if_pos ho]
        exact ⟨rfl, rfl, rfl, rfl⟩
      · rw [if_neg ho, if_neg ho]
        exact ⟨rfl, rfl, rfl, rfl⟩
  · rw [if_neg hd, if_neg hd]
    by_cases hl : cfg.phases.length - 1 ≤ i
    · rw [if_pos hl, if_pos hl]
      exact ⟨rfl, rfl, rfl, rfl⟩
    · rw [if_neg hl, if_neg hl]
      by_cases ho : truthy (cfg.phases.getD (i + 1) ⟨none, none⟩).owner = false
      · rw [if_pos ho, if_pos ho]
        exact ⟨rfl, rfl, rfl, rfl⟩
      · rw [if_neg ho, if_neg ho]
        exact ⟨rfl, rfl, rfl, rfl⟩

/-- A schema ≥ 2 config on which C1's universally quantified claim fails:
phase "plan" at index 1 has no owner. -/
def cfgMissingOwner : TeamConfig :=
  ⟨2, [⟨some "research", some "ana"⟩, ⟨some "plan", none⟩]⟩

/-- C1 counterexample: with schema 2 and two phases, approving the matched
non-terminal phase "research" does not yield `action = assign` (the claim's
prediction for a non-last index); the router escalates with exit code 1
because the next phase has no owner. -/
theorem router_adjacent_routing_cex :
    2 ≤ cfgMissingOwner.schema_version ∧
    cfgMissingOwner.phases.length = 2 ∧
    WorkflowRouter.findCurrent cfgMissingOwner.phases "research" =
      some (0, ⟨some "research", some "ana"⟩) ∧
    (WorkflowRouter.main cfgMissingOwner "research" "approved").1.action ≠ "assign" ∧
    (WorkflowRouter.main cfgMissingOwner "research" "approved").1.action = "escalate" ∧
    (WorkflowRouter.main cfgMissingOwner "research" "approved").2 = 1 := by
  decide

/-- C1 (amended): for a schema ≥ 2 team config whose phases all carry a
truthy name and owner, routing at the matched phase index i yields:
`complete` for approval of the last index, `assign` to phase i+1 for
approval of a non-last index, `escalate` (exit 0) for rejection at index 0,
and `assign` to phase i-1 for rejection at a positive index. -/
theorem router_adjacent_routing (cfg : TeamConfig) (nm : String) (i : Nat) (p : Phase)
    (hschema : 2 ≤ cfg.schema_version)
    (hfind : findCurrent cfg.phases nm = some (i, p))
    (howners : ∀ q ∈ cfg.phases, truthy q.name = true ∧ truthy q.owner = true) :
    (i = cfg.phases.length - 1 →
      (main cfg nm "approved").1.action = "complete" ∧
      (main cfg nm "approved").2 = 0) ∧
    (i < cfg.phases.length - 1 →
      (main cfg nm "approved").1.action = "assign" ∧
      (main cfg nm "approved").1.next_phase = (cfg.phases.getD (i + 1) ⟨none, none⟩).name ∧
      (main cfg nm "approved").1.next_agent = (cfg.phases.getD (i + 1) ⟨none, none⟩).owner ∧
      (main cfg nm "approved").2 = 0) ∧
    (i = 0 →
      (main cfg nm "rejected").1.action = "escalate" ∧
      (main cfg nm "rejected").2 = 0) ∧
    (0 < i →
      (main cfg nm "rejected").1.action = "assign" ∧
      (main cfg nm "rejected").1.next_phase = (cfg.phases.getD (i - 1) ⟨none, none⟩).name ∧
      (main cfg nm "rejected").1.next_agent = (cfg.phases.getD (i - 1) ⟨none, none⟩).owner ∧
      (main cfg nm "rejected").2 = 0) := by
  have hlt : i < cfg.phases.length := findCurrent_lt _ _ _ _ hfind
  have hmA : main cfg nm "approved" = route cfg nm "approved" i :=
    main_eval_found cfg nm "approved" i p (Or.inl rfl) hschema hfind
  have hmR : main cfg nm "rejected" = route cfg nm "rejected" i :=
    main_eval_found cfg nm "rejected" i p (Or.inr rfl) hschema hfind
  refine ⟨?_, ?_, ?_, ?_⟩
  · intro hlast
    rw [hmA, route_approved_last cfg nm i (by omega)]
    exact ⟨rfl, rfl⟩
  · intro hnotlast
    have hmem : cfg.phases.getD (i + 1) ⟨none, none⟩ ∈ cfg.phases := by
      rw [List.getD_eq_getElem cfg.phases ⟨none, none⟩ (by omega)]
      exact List.getElem_mem _
    have htr := howners _ hmem
    rw [hmA, route_approved_next cfg nm i (by omega) htr.2]
    refine ⟨rfl, ?_, ?_, rfl⟩
    · exact truthyOpt_of_truthy _ htr.1
    · exact truthyOpt_of_truthy _ htr.2
  · intro h0
    subst h0
    rw [hmR, route_rejected_first cfg nm]
    exact ⟨rfl, rfl⟩
  · intro hpos
    have hmem : cfg.phases.getD (i - 1) ⟨none, none⟩ ∈ cfg.phases := by
      rw [List.getD_eq_getElem cfg.phases ⟨none, none⟩ (by omega)]
      exact List.getElem_mem _
    have htr := howners _ hmem
    rw [hmR, route_rejected_prev cfg nm i (by omega) htr.2]
    refine ⟨rfl, ?_, ?_, rfl⟩
    · exact truthyOpt_of_truthy _ htr.1
    · exact truthyOpt_of_truthy _ htr.2

/-- C1 witness: the amended routing rules applied to a concrete two-phase
schema 2 team. -/
theorem router_adjacent_routing_witness :
    (WorkflowRouter.main ⟨2, [⟨some "research", some "ana"⟩, ⟨some "plan", some "bill"⟩]⟩
        "research" "approved").1.action = "assign" ∧
    (WorkflowRouter.main ⟨2, [⟨some "research", some "ana"⟩, ⟨some "plan", some "bill"⟩]⟩
        "research" "approved").1.next_agent = some "bill" := by
  have h := router_adjacent_routing
    ⟨2, [⟨some "research", some "ana"⟩, ⟨some "plan", some "bill"⟩]⟩
    "research" 0 ⟨some "research", some "ana"⟩ (by decide) (by decide) (by decide)
  have h2 := h.2.1 (by decide)
  exact ⟨h2.1, h2.2.2.1.trans (by decide)⟩

/-- C3: the router answers schema < 2, an unknown phase name, and a missing
owner on the routed-to phase with an `escalate` JSON document carrying a
nonempty reason; schema < 2 is a success (exit 0), the other two are errors
(exit 1), still as JSON on stdout. -/
theorem router_escalate_paths (cfg : TeamConfig) (nm d : String)
    (hd : d = "approved" ∨ d = "rejected") :
    (cfg.schema_version < 2 →
      (main cfg nm d).1.action = "escalate" ∧
      (main cfg nm d).1.reason ≠ "" ∧
      (main cfg nm d).2 = 0) ∧
    (2 ≤ cfg.schema_version → cfg.phases ≠ [] → findCurrent cfg.phases nm = none →
      (main cfg nm d).1.action = "escalate" ∧
      (main cfg nm d).1.reason ≠ "" ∧
      (main cfg nm d).2 = 1) ∧
    (∀ i p, 2 ≤ cfg.schema_version → findCurrent cfg.phases nm = some (i, p) →
      i < cfg.phases.length - 1 →
      truthy (cfg.phases.getD (i + 1) ⟨none, none⟩).owner = false →
      (main cfg nm "approved").1.action = "escalate" ∧
      (main cfg nm "approved").1.reason ≠ "" ∧
      (main cfg nm "approved").2 = 1) ∧
    (∀ i p, 2 ≤ cfg.schema_version → findCurrent cfg.phases nm = some (i, p) →
      0 < i →
      truthy (cfg.phases.getD (i - 1) ⟨none, none⟩).owner = false →
      (main cfg nm "rejected").1.action = "escalate" ∧
      (main cfg nm "rejected").1.reason ≠ "" ∧
      (main cfg nm "rejected").2 = 1) := by
  have h1 : ¬(d ≠ "approved" ∧ d ≠ "rejected") := by
    rcases hd with h | h <;> simp [h]
  refine ⟨?_, ?_, ?_, ?_⟩
  · intro h2
    unfold main
    rw [if_neg h1, if_pos h2]
    refine ⟨rfl, ?_, rfl⟩
    exact append_ne_empty_left _ _ (append_left_len _ _ (by decide))
  · intro h2 h3 hfind
    unfold main
    rw [if_neg h1, if_neg (not_lt.mpr h2), if_neg h3, hfind]
    refine ⟨rfl, ?_, rfl⟩
    exact append_ne_empty_left _ _ (append_left_len _ _ (append_left_len _ _ (by decide)))
  · intro i p h2 hfind hni ho
    rw [main_eval_found cfg nm "approved" i p (Or.inl rfl) h2 hfind]
    unfold route
    rw [if_neg (by decide), if_neg (by omega), if_pos ho]
    refine ⟨rfl, ?_, rfl⟩
    exact append_ne_empty_left _ _ (append_left_len _ _ (by decide))
  · intro i p h2 hfind hpos ho
    rw [main_eval_found cfg nm "rejected" i p (Or.inr rfl) h2 hfind]
    unfold route
    rw [if_pos rfl, if_neg (by omega), if_pos ho]
    refine ⟨rfl, ?_, rfl⟩
    exact append_ne_empty_left _ _ (append_left_len _ _ (by decide))

/-- C3 witness: the escalation paths evaluated on a concrete schema 1
config, a concrete unknown phase, and a concrete missing owner. -/
theorem router_escalate_paths_witness :
    (WorkflowRouter.main ⟨1, [⟨some "research", some "ana"⟩]⟩ "research" "approved").1.action
      = "escalate" ∧
    (WorkflowRouter.main ⟨1, [⟨some "research", some "ana"⟩]⟩ "research" "approved").2 = 0 ∧
    (WorkflowRouter.main ⟨2, [⟨some "research", some "ana"⟩]⟩ "zzz" "approved").1.action
      = "escalate" ∧
    (WorkflowRouter.main ⟨2, [⟨some "research", some "ana"⟩]⟩ "zzz" "approved").2 = 1 := by
  have ha := router_escalate_paths ⟨1, [⟨some "research", some "ana"⟩]⟩
    "research" "approved" (Or.inl rfl)
  have ha1 := ha.1 (by decide)
  have hb := router_escalate_paths ⟨2, [⟨some "research", some "ana"⟩]⟩
    "zzz" "approved" (Or.inl rfl)
  have hb1 := hb.2.1 (by decide) (by decide) (by decide)
  exact ⟨ha1.1, ha1.2.2, hb1.1, hb1.2.2⟩

/-- C4: the router's routing computation is deterministic: identical team
config contents, phase name and decision produce identical output JSON and
exit codes. -/
theorem router_deterministic (cfg cfg' : TeamConfig) (n n' d d' : String)
    (hcfg : cfg = cfg') (hn : n = n') (hd : d = d') :
    main cfg n d = main cfg' n' d' := by
  subst hcfg
  subst hn
  subst hd
  rfl

/-- C4 witness: determinism applied at a concrete run. -/
theorem router_deterministic_witness :
    WorkflowRouter.main ⟨2, [⟨some "a", some "ana"⟩]⟩ "a" "approved" =
      WorkflowRouter.main ⟨2, [⟨some "a", some "ana"⟩]⟩ "a" "approved" :=
  router_deterministic ⟨2, [⟨some "a", some "ana"⟩]⟩ ⟨2, [⟨some "a", some "ana"⟩]⟩
    "a" "a" "approved" "approved" rfl rfl rfl

/-- A two-phase schema 2 config for the case-insensitivity counterexample. -/
def cfgTwoPhases : TeamConfig :=
  ⟨2, [⟨some "research", some "ana"⟩, ⟨some "plan", some "bill"⟩]⟩

/-- C10 counterexample: "PLAN" and "plan" differ only in ASCII letter case
and select the same phase, but the two outputs are not identical: the
`reason` text embeds the phase-name argument as spelled. -/
theorem router_case_insensitive_cex :
    strLower "PLAN" = strLower "plan" ∧
    WorkflowRouter.main cfgTwoPhases "PLAN" "approved" ≠
      WorkflowRouter.main cfgTwoPhases "plan" "approved" ∧
    (WorkflowRouter.main cfgTwoPhases "PLAN" "approved").1.action =
      (WorkflowRouter.main cfgTwoPhases "plan" "approved").1.action := by
  decide

/-- C10 (amended): phase matching is case-insensitive — two spellings with
the same lowercase form select the same phase (same index) and produce the
same action, next_phase, next_agent and exit code; only the `reason` text
may differ, since it embeds the argument verbatim. -/
theorem router_case_insensitive (cfg : TeamConfig) (n₁ n₂ d : String)
    (h : strLower n₁ = strLower n₂) :
    findCurrent cfg.phases n₁ = findCurrent cfg.phases n₂ ∧
    (main cfg n₁ d).1.action = (main cfg n₂ d).1.action ∧
    (main cfg n₁ d).1.next_phase = (main cfg n₂ d).1.next_phase ∧
    (main cfg n₁ d).1.next_agent = (main cfg n₂ d).1.next_agent ∧
    (main cfg n₁ d).2 = (main cfg n₂ d).2 := by
  have hf : findCurrent cfg.phases n₁ = findCurrent cfg.phases n₂ :=
    findCurrent_congr n₁ n₂ h cfg.phases
  refine ⟨hf, ?_⟩
  unfold main
  by_cases h1 : d ≠ "approved" ∧ d ≠ "rejected"
  · rw [if_pos h1, if_pos h1]
    exact ⟨rfl, rfl, rfl, rfl⟩
  · rw [if_neg h1, if_neg h1]
    by_cases h2 : cfg.schema_version < 2
    · rw [if_pos h2, if_pos h2]
      exact ⟨rfl, rfl, rfl, rfl⟩
    · rw [if_neg h2, if_neg h2]
      by_cases h3 : cfg.phases = []
      · rw [if_pos h3, if_pos h3]
        exact ⟨rfl, rfl, rfl, rfl⟩
      · rw [if_neg h3, if_neg h3, hf]
        cases hm : findCurrent cfg.phases n₂ with
        | none => exact ⟨rfl, rfl, rfl, rfl⟩
        | some pr =>
            obtain ⟨i, p⟩ := pr
            exact route_components cfg n₁ n₂ d i

/-- C10 witness: the amended case-insensitivity applied to "PLAN" / "plan"
on a concrete config. -/
theorem router_case_insensitive_witness :
    (WorkflowRouter.main ⟨2, [⟨some "plan", some "ana"⟩]⟩ "PLAN" "approved").1.action =
      (WorkflowRouter.main ⟨2, [⟨some "plan", some "ana"⟩]⟩ "plan" "approved").1.action :=
  (router_case_insensitive ⟨2, [⟨some "plan", some "ana"⟩]⟩ "PLAN" "plan" "approved"
    (by decide)).2.1

end WorkflowRouter

namespace TeamValidator

/-- One agent entry of `team.agents` as validate-team-config.py reads it.
A two-level `Option` keeps Python's distinction between an absent key
(`none`) and a key present with a null value (`some none`); `output_file`
only ever goes through `.get`, which collapses absent and null to `None`,
so one level suffices there. -/
structure VAgent where
  name : String
  file_permissions : Option (Option String)
  workflow_participant : Option (Option Bool)
  output_file : Option String
  multi_instance : Bool
  max_instances : Option Int
  instance_names : Option (List String)
deriving DecidableEq, Inhabited

/-- One phase entry of `team.workflow.phases`; `none` models an absent key. -/
structure VPhase where
  name : Option String
  owner : Option String
  output : Option String
  requires : List String
deriving DecidableEq, Inhabited

/-- `team.workflow`: `none` in `phases` models an absent `phases` key. -/
structure VWorkflow where
  coordinator : Option String
  phases : Option (List VPhase)
deriving DecidableEq

/-- `team`: `hasName` models the presence of the `name` key (its value is
never read again); `none` models an absent `agents` / `workflow` key. -/
structure VTeam where
  hasName : Bool
  agents : Option (List VAgent)
  workflow : Option VWorkflow
deriving DecidableEq

/-- The parsed YAML document; `none` models an absent `team` root key. -/
structure VConfig where
  team : Option VTeam
deriving DecidableEq

/-- `agent.get('file_permissions')`: absent and null both read as `None`. -/
def fpGet (a : VAgent) : Option String := a.file_permissions.join

/-- `agent.get('workflow_participant')`. -/
def wpGet (a : VAgent) : Option Bool := a.workflow_participant.join

/-- The error strings of validate-team-config.py, built as its f-strings do. -/
def missingNameErr : String := "Agent with missing name field"

def dupNameErr (n : String) : String := "Duplicate agent name: " ++ n

def invalidNameErr (n : String) : String :=
  "Invalid agent name '" ++ n ++ "': must match ^[a-z][a-z0-9-]*$"

def agentFieldErr (n f : String) : String :=
  "Agent '" ++ n ++ "': missing required field '" ++ f ++ "'"

def fpErr (n : String) : String :=
  "Agent '" ++ n ++ "': file_permissions must be restricted|permissive|no_projects"

def missingCoordErr : String := "Missing workflow.coordinator"

def invalidCoordErr (c : String) : String :=
  "Invalid coordinator '" ++ c ++ "': agent not found"

def missingPhasesErr : String := "Missing workflow.phases"

def phaseFieldErr (p f : String) : String :=
  "Phase '" ++ p ++ "': missing required field '" ++ f ++ "'"

def ownerNotFoundErr (p o : String) : String :=
  "Phase '" ++ p ++ "': owner '" ++ o ++ "' not found in agents"

def depErr (p r : String) : String :=
  "Phase '" ++ p ++ "' requires '" ++ r ++ "' before it's produced"

/-- Python `repr` of a set of strings (the iteration order of a CPython set
is unspecified; this model fixes first-occurrence order). -/
def pySetRepr (l : List String) : String :=
  "\x7b" ++ String.intercalate ", " (l.map pyStrRepr) ++ "\x7d"

def dupOutputsErr (fs : List String) : String :=
  "Duplicate output files: " ++ pySetRepr fs

def restrictedErr (n : String) : String :=
  "Agent '" ++ n ++ "': restricted permissions but no output_file"

def noProjectsErr (n : String) : String :=
  "Agent '" ++ n ++ "': no_projects permissions must have output_file: null"

def coordWpErr (c : String) : String :=
  "Coordinator '" ++ c ++ "' should have workflow_participant: false"

def miMaxErr (n : String) : String :=
  "Agent '" ++ n ++ "': multi_instance requires max_instances"

def miNamesErr (n : String) : String :=
  "Agent '" ++ n ++ "': multi_instance requires instance_names"

def miLenErr (n : String) (k : Nat) (m : Int) : String :=
  "Agent '" ++ n ++ "': instance_names has " ++ toString k ++
    " names but max_instances is " ++ toString m

/-- `re.match(r'^[a-z][a-z0-9-]*$', name)` on the character list. -/
def isLowerAz (c : Char) : Bool := 'a' ≤ c && c ≤ 'z'

def isNameRest (c : Char) : Bool := isLowerAz c || ('0' ≤ c && c ≤ '9') || c = '-'

def regexCore : List Char → Bool
  | [] => false
  | c :: rest => isLowerAz c && rest.all isNameRest

/-- The Python regex `$` also matches just before one trailing newline. -/
def validAgentName (s : String) : Bool :=
  regexCore s.data ||
    (s.data.getLast? = some '\n' && regexCore s.data.dropLast)

/-- The agent validation loop (lines 40-62 of validate-team-config.py),
carrying the `seen_names` set. -/
def agentLoop : List VAgent → List String → List String
  | [], _ => []
  | a :: rest, seen =>
      if a.name = "" then missingNameErr :: agentLoop rest seen
      else
        (if a.name ∈ seen then [dupNameErr a.name] else []) ++
        (if validAgentName a.name then [] else [invalidNameErr a.name]) ++
        (if a.file_permissions.isSome then [] else [agentFieldErr a.name "file_permissions"]) ++
        (if a.workflow_participant.isSome then [] else [agentFieldErr a.name "workflow_participant"]) ++
        (if fpGet a = some "restricted" ∨ fpGet a = some "permissive" ∨
            fpGet a = some "no_projects" then []
         else [fpErr a.name]) ++
        agentLoop rest (a.name :: seen)

/-- The truthy declared output of a phase (`if phase.get('output'):`). -/
def phaseOut (p : VPhase) : Option String :=
  match p.output with
  | some o => if o ≠ "" then some o else none
  | none => none

/-- The phase validation loop (lines 80-99), carrying the `output_files`
set, which starts holding `context.md`. -/
def phaseLoop (agent_names : List String) : List VPhase → List String → List String
  | [], _ => []
  | p :: rest, outputs =>
      let pname := p.name.getD "<unnamed>"
      ((if p.name.isSome then [] else [phaseFieldErr pname "name"]) ++
       (if p.owner.isSome then [] else [phaseFieldErr pname "owner"]) ++
       (if p.output.isSome then [] else [phaseFieldErr pname "output"]) ++
       (match p.owner with
        | some o => if o ≠ "" ∧ o ∉ agent_names then [ownerNotFoundErr pname o] else []
        | none => []) ++
       p.requires.filterMap (fun r => if r ∈ outputs then none else some (depErr pname r))) ++
      phaseLoop agent_names rest (outputs ++ (phaseOut p).toList)

/-- The keys of `{a['name']: a for a in agents}` in insertion order:
first occurrence of each name. -/
def firstKeys : List String → List String
  | [] => []
  | n :: rest => n :: firstKeys (rest.filter (fun m => m ≠ n))
termination_by l => l.length
decreasing_by
  simp only [List.length_cons]
  exact Nat.lt_succ_of_le (List.length_filter_le _ _)

/-- The value stored for a key of that dict: the last agent with the name. -/
def lastWithName (l : List VAgent) (n : String) : VAgent :=
  ((l.filter (fun a => a.name = n)).getLast?).getD default

/-- `agents.values()` of the comprehension dict, in insertion order. -/
def agentsDict (l : List VAgent) : List VAgent :=
  (firstKeys (l.map (fun a => a.name))).map (fun n => lastWithName l n)

/-- The `coordinator` reference check (lines 67-70). -/
def coordRefBlock (agent_names : List String) (workflow : VWorkflow) : List String :=
  match workflow.coordinator with
  | none => [missingCoordErr]
  | some c => if c ∈ agent_names then [] else [invalidCoordErr c]

/-- The `phases` presence check and loop (lines 73-99). -/
def phasesBlock (agent_names : List String) (workflow : VWorkflow) : List String :=
  match workflow.phases with
  | none => [missingPhasesErr]
  | some phases => phaseLoop agent_names phases ["context.md"]

/-- `output_file_list` (line 104): truthy output files of `agents.values()`. -/
def outputFileList (agents : List VAgent) : List String :=
  agents.filterMap (fun a =>
    match a.output_file with
    | some f => if f ≠ "" then some f else none
    | none => none)

/-- `duplicates` (line 105): the set of files appearing more than once. -/
def dupOutputs (agents : List VAgent) : List String :=
  firstKeys ((outputFileList agents).filter
    (fun f => 1 < (outputFileList agents).count f))

/-- The duplicate-output check (lines 104-107). -/
def dupOutputBlock (agents : List VAgent) : List String :=
  if dupOutputs agents ≠ [] then [dupOutputsErr (dupOutputs agents)] else []

/-- The `restricted` permission check (lines 110-112). -/
def restrictedBlock (agents : List VAgent) : List String :=
  agents.filterMap (fun a =>
    if fpGet a = some "restricted" ∧ truthy a.output_file = false then
      some (restrictedErr a.name)
    else none)

/-- The `no_projects` permission check (lines 115-117). -/
def noProjectsBlock (agents : List VAgent) : List String :=
  agents.filterMap (fun a =>
    if fpGet a = some "no_projects" ∧ a.output_file.isSome then
      some (noProjectsErr a.name)
    else none)

/-- The coordinator workflow-participant check (lines 120-124). -/
def coordWpBlock (agentList : List VAgent) (agent_names : List String)
    (workflow : VWorkflow) : List String :=
  match workflow.coordinator with
  | some c =>
      if c ≠ "" ∧ c ∈ agent_names then
        (if wpGet (lastWithName agentList c) = some true then [coordWpErr c] else [])
      else []
  | none => []

/-- The multi-instance consistency check (lines 127-134). -/
def multiBlock (agents : List VAgent) : List String :=
  agents.foldr (fun a acc =>
    (if a.multi_instance then
      (if a.max_instances.isSome then [] else [miMaxErr a.name]) ++
      (match a.instance_names with
       | none => [miNamesErr a.name]
       | some ns =>
          if (ns.length : Int) < a.max_instances.getD 0 then
            [miLenErr a.name ns.length (a.max_instances.getD 0)]
          else [])
     else []) ++ acc) []

/-- The body of `validate_team_config` after the structure checks pass
(lines 36-136), with the checks appended in program order. -/
def validateBody (agentList : List VAgent) (workflow : VWorkflow) : List String :=
  agentLoop agentList [] ++
  coordRefBlock (agentList.map (fun a => a.name)) workflow ++
  phasesBlock (agentList.map (fun a => a.name)) workflow ++
  dupOutputBlock (agentsDict agentList) ++
  restrictedBlock (agentsDict agentList) ++
  noProjectsBlock (agentsDict agentList) ++
  coordWpBlock agentList (agentList.map (fun a => a.name)) workflow ++
  multiBlock (agentsDict agentList)

/-- The three `Missing required field: team.<f>` checks (lines 29-31). -/
def structErrors (team : VTeam) : List String :=
  (if team.hasName then [] else ["Missing required field: team.name"]) ++
  (if team.agents.isSome then [] else ["Missing required field: team.agents"]) ++
  (if team.workflow.isSome then [] else ["Missing required field: team.workflow"])

/-- `validate_team_config` of validate-team-config.py: the full error list. -/
def validate_team_config (config : VConfig) : List String :=
  match config.team with
  | none => ["Missing 'team' root key"]
  | some team =>
      match team.agents, team.workflow with
      | some agentList, some workflow =>
          if team.hasName then validateBody agentList workflow
          else structErrors team
      | _, _ => structErrors team

/-- The parsed YAML document as `get_depth` sees it: scalars, lists and
dicts (only a dict's values are walked). -/
inductive Yaml where
  | scalar : Yaml
  | arr : List Yaml → Yaml
  | dict : List (String × Yaml) → Yaml

/-- Python `max(iterable, default=d)`. -/
def pyMax (l : List Nat) (d : Nat) : Nat :=
  match l with
  | [] => d
  | x :: xs => xs.foldl max x

mutual

/-- `get_depth` of validate-team-config.py (lines 164-169). -/
def get_depth : Yaml → Nat → Nat
  | .scalar, current => current
  | .dict kvs, current => pyMax (depthVals kvs (current + 1)) current
  | .arr items, current => pyMax (depthItems items (current + 1)) current

/-- Depths of a dict's values. -/
def depthVals : List (String × Yaml) → Nat → List Nat
  | [], _ => []
  | (_, v) :: rest, c => get_depth v c :: depthVals rest c

/-- Depths of a list's items. -/
def depthItems : List Yaml → Nat → List Nat
  | [], _ => []
  | y :: rest, c => get_depth y c :: depthItems rest c

end

/-- The observable outcome of one validator run: process exit code, whether
`validate_team_config` was reached, and the error list it produced. -/
structure ValidatorRun where
  exitCode : Nat
  ranSemanticValidation : Bool
  errors : List String
deriving DecidableEq

/-- `main` of validate-team-config.py from the size check on: `fileSize` is
`config_path.stat().st_size`, `doc` the parsed YAML document and `cfg` the
validator's view of the same document. -/
def main (fileSize : Nat) (doc : Yaml) (cfg : VConfig) : ValidatorRun :=
  if 1048576 < fileSize then ⟨1, false, []⟩
  else if 10 < get_depth doc 0 then ⟨1, false, []⟩
  else
    let errors := validate_team_config cfg
    if errors ≠ [] then ⟨1, true, errors⟩ else ⟨0, true, errors⟩

/-- C7: both resource limits are hard errors: a file strictly larger than
1,048,576 bytes exits with code 1 before any semantic validation, and so
does a parsed document nested deeper than 10 levels. -/
theorem validator_resource_limits (fileSize : Nat) (doc : Yaml) (cfg : VConfig) :
    (1048576 < fileSize →
      (main fileSize doc cfg).exitCode = 1 ∧
      (main fileSize doc cfg).ranSemanticValidation = false) ∧
    (10 < get_depth doc 0 →
      (main fileSize doc cfg).exitCode = 1 ∧
      (main fileSize doc cfg).ranSemanticValidation = false) := by
  constructor
  · intro h
    unfold main
    rw [if_pos h]
    exact ⟨rfl, rfl⟩
  · intro h
    unfold main
    by_cases hs : 1048576 < fileSize
    · rw [if_pos hs]
      exact ⟨rfl, rfl⟩
    · rw [if_neg hs, if_pos h]
      exact ⟨rfl, rfl⟩

/-- A map that fixes every member of a list leaves the list unchanged. -/
theorem map_eq_self_of_mem {α : Type} (l : List α) (f : α → α)
    (h : ∀ a ∈ l, f a = a) : l.map f = l := by
  induction l with
  | nil => rfl
  | cons a rest ih =>
      simp only [List.map_cons]
      rw [h a (List.mem_cons_self a rest),
        ih (fun b hb => h b (List.mem_cons_of_mem a hb))]

/-- `firstKeys` is empty exactly on the empty list. -/
theorem firstKeys_eq_nil (l : List String) : firstKeys l = [] ↔ l = [] := by
  cases l with
  | nil => simp [firstKeys]
  | cons n rest => rw [firstKeys]; simp

/-- On a duplicate-free list the dict keys are the list itself. -/
theorem firstKeys_of_nodup : ∀ (l : List String), l.Nodup → firstKeys l = l := by
  intro l
  induction l with
  | nil => intro _; simp [firstKeys]
  | cons n rest ih =>
      intro h
      simp only [List.nodup_cons] at h
      rw [firstKeys, List.filter_eq_self.mpr ?_, ih h.2]
      intro m hm
      simp only [decide_eq_true_eq]
      exact fun he => h.1 (he ▸ hm)

/-- With duplicate-free names, filtering a member's name keeps exactly it. -/
theorem filter_name_singleton : ∀ (l : List VAgent) (a : VAgent),
    (l.map (fun x => x.name)).Nodup → a ∈ l →
    l.filter (fun b => b.name = a.name) = [a] := by
  intro l
  induction l with
  | nil => intro a _ ha; simp at ha
  | cons c rest ih =>
      intro a hnd ha
      simp only [List.map_cons, List.nodup_cons] at hnd
      obtain ⟨hcn, hndr⟩ := hnd
      rcases List.mem_cons.mp ha with rfl | hmem
      · rw [List.filter_cons_of_pos (by simp), List.filter_eq_nil_iff.mpr ?_]
        intro b hb
        simp only [decide_eq_true_eq]
        exact fun hbe => hcn (hbe ▸ List.mem_map_of_mem _ hb)
      · have hcne : c.name ≠ a.name :=
          fun he => hcn (he ▸ List.mem_map_of_mem _ hmem)
        rw [List.filter_cons_of_neg (by simp [hcne])]
        exact ih a hndr hmem

/-- With duplicate-free names the comprehension dict keeps every agent. -/
theorem agentsDict_of_nodup (l : List VAgent)
    (h : (l.map (fun a => a.name)).Nodup) : agentsDict l = l := by
  unfold agentsDict
  rw [firstKeys_of_nodup _ h, List.map_map]
  exact map_eq_self_of_mem l _ (fun a ha => by
    show lastWithName l a.name = a
    unfold lastWithName
    rw [filter_name_singleton l a h ha]
    rfl)

/-- An agent with a falsy name always contributes the missing-name error. -/
theorem missingName_mem_agentLoop : ∀ (l : List VAgent) (seen : List String)
    (a : VAgent), a ∈ l → a.name = "" → missingNameErr ∈ agentLoop l seen := by
  intro l
  induction l with
  | nil => intro seen a ha; simp at ha
  | cons b rest ih =>
      intro seen a ha hname
      rcases List.mem_cons.mp ha with rfl | hmem
      · rw [agentLoop, if_pos hname]
        exact List.mem_cons_self _ _
      · by_cases hb : b.name = ""
        · rw [agentLoop, if_pos hb]
          exact List.mem_cons_of_mem _ (ih seen a hmem hname)
        · rw [agentLoop, if_neg hb]
          exact List.mem_append_right _ (ih _ a hmem hname)

/-- A truthy name already seen, carried by some later agent, produces the
duplicate-name error. -/
theorem dupName_mem_agentLoop : ∀ (l : List VAgent) (seen : List String)
    (n : String), n ≠ "" → n ∈ seen → (∃ a ∈ l, a.name = n) →
    dupNameErr n ∈ agentLoop l seen := by
  intro l
  induction l with
  | nil => intro seen n _ _ h; simp at h
  | cons b rest ih =>
      intro seen n hn hseen ⟨a, ha, hname⟩
      rcases List.mem_cons.mp ha with rfl | hmem
      · rw [agentLoop, if_neg (hname ▸ hn)]
        refine List.mem_append_left _ (List.mem_append_left _
          (List.mem_append_left _ (List.mem_append_left _
            (List.mem_append_left _ ?_))))
        rw [if_pos (hname ▸ hseen), ← hname]
        exact List.mem_cons_self _ _
      · by_cases hb : b.name = ""
        · rw [agentLoop, if_pos hb]
          exact List.mem_cons_of_mem _ (ih seen n hn hseen ⟨a, hmem, hname⟩)
        · rw [agentLoop, if_neg hb]
          exact List.mem_append_right _
            (ih _ n hn (List.mem_cons_of_mem _ hseen) ⟨a, hmem, hname⟩)

/-- Duplicate agent names make the agent loop report at least one error. -/
theorem agentLoop_ne_nil_of_dup : ∀ (l : List VAgent) (seen : List String),
    ¬ (l.map (fun a => a.name)).Nodup → agentLoop l seen ≠ [] := by
  intro l
  induction l with
  | nil => intro seen h; simp at h
  | cons b rest ih =>
      intro seen h
      simp only [List.map_cons, List.nodup_cons] at h
      by_cases hb : b.name = ""
      · rw [agentLoop, if_pos hb]
        simp
      · rw [agentLoop, if_neg hb]
        rcases not_and_or.mp h with hmem | hnd
        · rw [not_not] at hmem
          obtain ⟨a, ha, hna⟩ := List.mem_map.mp hmem
          have hd : dupNameErr b.name ∈ agentLoop rest (b.name :: seen) :=
            dupName_mem_agentLoop rest (b.name :: seen) b.name hb
              (List.mem_cons_self _ _) ⟨a, ha, hna⟩
          exact List.ne_nil_of_mem (List.mem_append_right _ hd)
        · intro hc
          simp only [List.append_eq_nil] at hc
          exact ih _ hnd hc.2

/-- Two distinct positions mapped to the same value make its count in the
`filterMap` at least two. -/
theorem one_lt_count_filterMap (g : VAgent → Option String) (f : String) :
    ∀ (l : List VAgent) (i j : Nat) (hi : i < l.length) (hj : j < l.length),
      i ≠ j → g (l.get ⟨i, hi⟩) = some f → g (l.get ⟨j, hj⟩) = some f →
      1 < (l.filterMap g).count f := by
  intro l
  induction l with
  | nil => intro i j hi; simp at hi
  | cons a rest ih =>
      intro i j hi hj hij hgi hgj
      cases i with
      | zero =>
          cases j with
          | zero => exact absurd rfl hij
          | succ j' =>
              have hga : g a = some f := hgi
              have hmem : f ∈ rest.filterMap g :=
                List.mem_filterMap.mpr ⟨rest.get ⟨j', by simpa using hj⟩,
                  List.get_mem _ _ _, hgj⟩
              rw [List.filterMap_cons_some hga, List.count_cons_self]
              have := List.count_pos_iff.mpr hmem
              omega
      | succ i' =>
          cases j with
          | zero =>
              have hga : g a = some f := hgj
              have hmem : f ∈ rest.filterMap g :=
                List.mem_filterMap.mpr ⟨rest.get ⟨i', by simpa using hi⟩,
                  List.get_mem _ _ _, hgi⟩
              rw [List.filterMap_cons_some hga, List.count_cons_self]
              have := List.count_pos_iff.mpr hmem
              omega
          | succ j' =>
              have hih := ih i' j' (by simpa using hi) (by simpa using hj)
                (fun h => hij (by rw [h])) hgi hgj
              cases hga : g a with
              | none => rw [List.filterMap_cons_none hga]; exact hih
              | some b =>
                  rw [List.filterMap_cons_some hga, List.count_cons]
                  omega

/-- With the structural keys present, `validate_team_config` runs the body. -/
theorem validate_eq_body (cfg : VConfig) (t : VTeam) (ags : List VAgent)
    (wf : VWorkflow) (ht : cfg.team = some t) (hn : t.hasName = true)
    (ha : t.agents = some ags) (hw : t.workflow = some wf) :
    validate_team_config cfg = validateBody ags wf := by
  rcases t with ⟨hasName, agents, workflow⟩
  dsimp only at hn ha hw
  subst hn ha hw
  unfold validate_team_config
  rw [ht]
  rfl

/-- A nonempty agent loop keeps the whole error list nonempty. -/
theorem validateBody_ne_nil_of_agentLoop (ags : List VAgent) (wf : VWorkflow)
    (h : agentLoop ags [] ≠ []) : validateBody ags wf ≠ [] := by
  intro hc
  unfold validateBody at hc
  simp only [List.append_eq_nil] at hc
  exact h hc.1.1.1.1.1.1.1

/-- C6: the validator reports an error whenever two agents declare the same
truthy output filename, whenever a `restricted` agent has a falsy
output_file, whenever a `no_projects` agent has a non-null output_file, and
whenever the declared coordinator's entry has `workflow_participant: true`. -/
theorem validator_semantic_checks (cfg : VConfig) (t : VTeam) (ags : List VAgent)
    (wf : VWorkflow) (ht : cfg.team = some t) (hn : t.hasName = true)
    (ha : t.agents = some ags) (hw : t.workflow = some wf) :
    ((∃ i j, ∃ hi : i < ags.length, ∃ hj : j < ags.length, i ≠ j ∧
        truthy (ags.get ⟨i, hi⟩).output_file = true ∧
        (ags.get ⟨i, hi⟩).output_file = (ags.get ⟨j, hj⟩).output_file) →
      validate_team_config cfg ≠ []) ∧
    ((∃ a ∈ ags, fpGet a = some "restricted" ∧ truthy a.output_file = false) →
      validate_team_config cfg ≠ []) ∧
    ((∃ a ∈ ags, fpGet a = some "no_projects" ∧ a.output_file.isSome = true) →
      validate_team_config cfg ≠ []) ∧
    (∀ c, wf.coordinator = some c → c ∈ ags.map (fun a => a.name) →
      wpGet (lastWithName ags c) = some true →
      validate_team_config cfg ≠ []) := by
  have hbody := validate_eq_body cfg t ags wf ht hn ha hw
  refine ⟨?_, ?_, ?_, ?_⟩
  · intro hdup
    rw [hbody]
    by_cases hnd : (ags.map (fun a => a.name)).Nodup
    · obtain ⟨i, j, hi, hj, hij, htru, heq⟩ := hdup
      have hd := agentsDict_of_nodup ags hnd
      cases ho : (ags.get ⟨i, hi⟩).output_file with
      | none => rw [ho] at htru; simp [truthy] at htru
      | some s =>
          have hs : s ≠ "" := by
            rw [ho] at htru
            simpa [truthy] using htru
          have hoj : (ags.get ⟨j, hj⟩).output_file = some s := heq ▸ ho
          have hgi : (fun a : VAgent =>
              match a.output_file with
              | some f => if f ≠ "" then some f else none
              | none => none) (ags.get ⟨i, hi⟩) = some s := by
            simp only [ho]
            rw [if_pos hs]
          have hgj : (fun a : VAgent =>
              match a.output_file with
              | some f => if f ≠ "" then some f else none
              | none => none) (ags.get ⟨j, hj⟩) = some s := by
            simp only [hoj]
            rw [if_pos hs]
          have hcount : 1 < (outputFileList ags).count s :=
            one_lt_count_filterMap _ s ags i j hi hj hij hgi hgj
          have hsmem : s ∈ outputFileList ags :=
            List.count_pos_iff.mp (by omega)
          have hfil : s ∈ (outputFileList ags).filter
              (fun f => 1 < (outputFileList ags).count f) :=
            List.mem_filter.mpr ⟨hsmem, by simpa using hcount⟩
          have hdups : dupOutputs ags ≠ [] := by
            unfold dupOutputs
            rw [Ne, firstKeys_eq_nil]
            exact List.ne_nil_of_mem hfil
          have hblock : dupOutputsErr (dupOutputs (agentsDict ags)) ∈
              dupOutputBlock (agentsDict ags) := by
            rw [hd]
            unfold dupOutputBlock
            rw [if_pos hdups]
            exact List.mem_cons_self _ _
          exact List.ne_nil_of_mem (List.mem_append_left _
            (List.mem_append_left _ (List.mem_append_left _
              (List.mem_append_left _ (List.mem_append_right _ hblock)))))
    · exact validateBody_ne_nil_of_agentLoop ags wf
        (agentLoop_ne_nil_of_dup ags [] hnd)
  · intro hres
    rw [hbody]
    by_cases hnd : (ags.map (fun a => a.name)).Nodup
    · obtain ⟨a, hmem, hfp, hout⟩ := hres
      have hd := agentsDict_of_nodup ags hnd
      have hblock : restrictedErr a.name ∈ restrictedBlock (agentsDict ags) := by
        rw [hd]
        unfold restrictedBlock
        exact List.mem_filterMap.mpr ⟨a, hmem, by rw [if_pos ⟨hfp, hout⟩]⟩
      exact List.ne_nil_of_mem (List.mem_append_left _
        (List.mem_append_left _ (List.mem_append_left _
          (List.mem_append_right _ hblock))))
    · exact validateBody_ne_nil_of_agentLoop ags wf
        (agentLoop_ne_nil_of_dup ags [] hnd)
  · intro hnp
    rw [hbody]
    by_cases hnd : (ags.map (fun a => a.name)).Nodup
    · obtain ⟨a, hmem, hfp, hout⟩ := hnp
      have hd := agentsDict_of_nodup ags hnd
      have hblock : noProjectsErr a.name ∈ noProjectsBlock (agentsDict ags) := by
        rw [hd]
        unfold noProjectsBlock
        exact List.mem_filterMap.mpr ⟨a, hmem, by rw [if_pos ⟨hfp, hout⟩]⟩
      exact List.ne_nil_of_mem (List.mem_append_left _
        (List.mem_append_left _ (List.mem_append_right _ hblock)))
    · exact validateBody_ne_nil_of_agentLoop ags wf
        (agentLoop_ne_nil_of_dup ags [] hnd)
  · intro c hco hcm hwp
    rw [hbody]
    by_cases hc0 : c = ""
    · obtain ⟨a, hmem, hname⟩ := List.mem_map.mp hcm
      exact validateBody_ne_nil_of_agentLoop ags wf
        (List.ne_nil_of_mem
          (missingName_mem_agentLoop ags [] a hmem (hname.trans hc0)))
    · have hblock : coordWpErr c ∈
          coordWpBlock ags (ags.map (fun a => a.name)) wf := by
        unfold coordWpBlock
        rw [hco]
        show coordWpErr c ∈
          if c ≠ "" ∧ c ∈ List.map (fun a => a.name) ags then
            (if wpGet (lastWithName ags c) = some true then [coordWpErr c] else [])
          else []
        rw [if_pos ⟨hc0, hcm⟩, if_pos hwp]
        exact List.mem_cons_self _ _
      exact List.ne_nil_of_mem (List.mem_append_left _
        (List.mem_append_right _ hblock))

/-- C6 witness: a concrete config violating each of the four invariants. -/
theorem validator_semantic_checks_witness :
    TeamValidator.validate_team_config
      ⟨some ⟨true,
        some [⟨"x", some (some "restricted"), some (some true), some "o.md", false, none, none⟩,
              ⟨"y", some (some "permissive"), some (some true), some "o.md", false, none, none⟩],
        some ⟨some "x", some []⟩⟩⟩ ≠ [] := by
  have h := validator_semantic_checks
    ⟨some ⟨true,
      some [⟨"x", some (some "restricted"), some (some true), some "o.md", false, none, none⟩,
            ⟨"y", some (some "permissive"), some (some true), some "o.md", false, none, none⟩],
      some ⟨some "x", some []⟩⟩⟩
    ⟨true,
      some [⟨"x", some (some "restricted"), some (some true), some "o.md", false, none, none⟩,
            ⟨"y", some (some "permissive"), some (some true), some "o.md", false, none, none⟩],
      some ⟨some "x", some []⟩⟩
    [⟨"x", some (some "restricted"), some (some true), some "o.md", false, none, none⟩,
     ⟨"y", some (some "permissive"), some (some true), some "o.md", false, none, none⟩]
    ⟨some "x", some []⟩ rfl rfl rfl rfl
  exact h.1 ⟨0, 1, by decide, by decide, by decide, by decide, by decide⟩

/-- An eleven-levels-deep document: nested singleton lists. -/
def deepDoc : Nat → Yaml
  | 0 => .scalar
  | n + 1 => .arr [deepDoc n]

/-- C7 witness: the limits evaluated at a 2 MB file size and at an
11-levels-deep document. -/
theorem validator_resource_limits_witness :
    (TeamValidator.main 2097152 .scalar ⟨none⟩).exitCode = 1 ∧
    (TeamValidator.main 2097152 .scalar ⟨none⟩).ranSemanticValidation = false ∧
    get_depth (deepDoc 11) 0 = 11 ∧
    (TeamValidator.main 0 (deepDoc 11) ⟨none⟩).exitCode = 1 ∧
    (TeamValidator.main 0 (deepDoc 11) ⟨none⟩).ranSemanticValidation = false := by
  have h1 := (validator_resource_limits 2097152 .scalar ⟨none⟩).1 (by omega)
  have hdepth : get_depth (deepDoc 11) 0 = 11 := by decide
  have h2 := (validator_resource_limits 0 (deepDoc 11) ⟨none⟩).2 (by rw [hdepth]; omega)
  exact ⟨h1.1, h1.2, hdepth, h2.1, h2.2⟩

/-- The first character of an error string, used to tell the fixed formats
apart. -/
def headChar (s : String) : Option Char := s.data.head?

/-- The last character of an error string. -/
def lastChar (s : String) : Option Char := s.data.reverse.head?

theorem headChar_append_left (s t : String) (c : Char)
    (h : headChar s = some c) : headChar (s ++ t) = some c := by
  unfold headChar at *
  rw [str_data_append]
  cases hd : s.data with
  | nil => rw [hd] at h; simp at h
  | cons a l =>
      rw [hd] at h
      simpa using h

theorem lastChar_append_right (s t : String) (c : Char)
    (h : lastChar t = some c) : lastChar (s ++ t) = some c := by
  unfold lastChar at *
  rw [str_data_append, List.reverse_append]
  cases hd : t.data.reverse with
  | nil => rw [hd] at h; simp at h
  | cons a l =>
      rw [hd] at h
      simpa using h

theorem ne_of_headChar (c₁ c₂ : Char) {s t : String}
    (hs : headChar s = some c₁) (ht : headChar t = some c₂) (h : c₁ ≠ c₂) :
    s ≠ t := by
  intro he
  subst he
  rw [hs] at ht
  exact h (Option.some.inj ht)

theorem ne_of_lastChar (c₁ c₂ : Char) {s t : String}
    (hs : lastChar s = some c₁) (ht : lastChar t = some c₂) (h : c₁ ≠ c₂) :
    s ≠ t := by
  intro he
  subst he
  rw [hs] at ht
  exact h (Option.some.inj ht)

theorem depErr_headChar (p r : String) : headChar (depErr p r) = some 'P' := by
  unfold depErr
  exact headChar_append_left _ _ _ (headChar_append_left _ _ _
    (headChar_append_left _ _ _ (headChar_append_left _ _ _ (by decide))))

theorem depErr_lastChar (p r : String) : lastChar (depErr p r) = some 'd' := by
  unfold depErr
  exact lastChar_append_right _ _ _ (by decide)

/-- A dependency error never coincides with any other error format the
validator can emit: every other format starts with a different character or
ends with one. -/
theorem depErr_ne_missingNameErr (p r : String) : depErr p r ≠ missingNameErr :=
  ne_of_headChar 'P' 'A' (depErr_headChar p r) (by decide) (by decide)

theorem depErr_ne_dupNameErr (p r n : String) : depErr p r ≠ dupNameErr n :=
  ne_of_headChar 'P' 'D' (depErr_headChar p r)
    (headChar_append_left _ _ _ (by decide)) (by decide)

theorem depErr_ne_invalidNameErr (p r n : String) : depErr p r ≠ invalidNameErr n :=
  ne_of_headChar 'P' 'I' (depErr_headChar p r)
    (headChar_append_left _ _ _ (headChar_append_left _ _ _ (by decide))) (by decide)

theorem depErr_ne_agentFieldErr (p r n f : String) : depErr p r ≠ agentFieldErr n f :=
  ne_of_headChar 'P' 'A' (depErr_headChar p r)
    (headChar_append_left _ _ _ (headChar_append_left _ _ _
      (headChar_append_left _ _ _ (headChar_append_left _ _ _ (by decide)))))
    (by decide)

theorem depErr_ne_fpErr (p r n : String) : depErr p r ≠ fpErr n :=
  ne_of_headChar 'P' 'A' (depErr_headChar p r)
    (headChar_append_left _ _ _ (headChar_append_left _ _ _ (by decide))) (by decide)

theorem depErr_ne_missingCoordErr (p r : String) : depErr p r ≠ missingCoordErr :=
  ne_of_headChar 'P' 'M' (depErr_headChar p r) (by decide) (by decide)

theorem depErr_ne_invalidCoordErr (p r c : String) : depErr p r ≠ invalidCoordErr c :=
  ne_of_headChar 'P' 'I' (depErr_headChar p r)
    (headChar_append_left _ _ _ (headChar_append_left _ _ _ (by decide))) (by decide)

theorem depErr_ne_missingPhasesErr (p r : String) : depErr p r ≠ missingPhasesErr :=
  ne_of_headChar 'P' 'M' (depErr_headChar p r) (by decide) (by decide)

theorem depErr_ne_phaseFieldErr (p r q f : String) : depErr p r ≠ phaseFieldErr q f :=
  ne_of_lastChar 'd' '\'' (depErr_lastChar p r)
    (lastChar_append_right _ _ _ (by decide)) (by decide)

theorem depErr_ne_ownerNotFoundErr (p r q o : String) :
    depErr p r ≠ ownerNotFoundErr q o :=
  ne_of_lastChar 'd' 's' (depErr_lastChar p r)
    (lastChar_append_right _ _ _ (by decide)) (by decide)

theorem depErr_ne_dupOutputsErr (p r : String) (fs : List String) :
    depErr p r ≠ dupOutputsErr fs :=
  ne_of_headChar 'P' 'D' (depErr_headChar p r)
    (headChar_append_left _ _ _ (by decide)) (by decide)

theorem depErr_ne_restrictedErr (p r n : String) : depErr p r ≠ restrictedErr n :=
  ne_of_headChar 'P' 'A' (depErr_headChar p r)
    (headChar_append_left _ _ _ (headChar_append_left _ _ _ (by decide))) (by decide)

theorem depErr_ne_noProjectsErr (p r n : String) : depErr p r ≠ noProjectsErr n :=
  ne_of_headChar 'P' 'A' (depErr_headChar p r)
    (headChar_append_left _ _ _ (headChar_append_left _ _ _ (by decide))) (by decide)

theorem depErr_ne_coordWpErr (p r c : String) : depErr p r ≠ coordWpErr c :=
  ne_of_headChar 'P' 'C' (depErr_headChar p r)
    (headChar_append_left _ _ _ (headChar_append_left _ _ _ (by decide))) (by decide)

theorem depErr_ne_miMaxErr (p r n : String) : depErr p r ≠ miMaxErr n :=
  ne_of_headChar 'P' 'A' (depErr_headChar p r)
    (headChar_append_left _ _ _ (headChar_append_left _ _ _ (by decide))) (by decide)

theorem depErr_ne_miNamesErr (p r n : String) : depErr p r ≠ miNamesErr n :=
  ne_of_headChar 'P' 'A' (depErr_headChar p r)
    (headChar_append_left _ _ _ (headChar_append_left _ _ _ (by decide))) (by decide)

theorem depErr_ne_miLenErr (p r n : String) (k : Nat) (m : Int) :
    depErr p r ≠ miLenErr n k m :=
  ne_of_headChar 'P' 'A' (depErr_headChar p r)
    (headChar_append_left _ _ _ (headChar_append_left _ _ _
      (headChar_append_left _ _ _ (headChar_append_left _ _ _
        (headChar_append_left _ _ _ (by decide)))))) (by decide)

/-- Membership in a guarded singleton forces the element. -/
theorem mem_if_singleton {c : Prop} [Decidable c] {e x : String}
    (h : e ∈ (if c then [x] else ([] : List String))) : e = x := by
  split at h
  · simpa using h
  · simp at h

/-- Membership in a negatively guarded singleton forces the element. -/
theorem mem_if_singleton' {c : Prop} [Decidable c] {e x : String}
    (h : e ∈ (if c then ([] : List String) else [x])) : e = x := by
  split at h
  · simp at h
  · simpa using h

/-- Every error of the agent loop has one of its five formats. -/
theorem agentLoop_shapes : ∀ (l : List VAgent) (seen : List String) (e : String),
    e ∈ agentLoop l seen →
    e = missingNameErr ∨ (∃ n, e = dupNameErr n) ∨ (∃ n, e = invalidNameErr n) ∨
    (∃ n f, e = agentFieldErr n f) ∨ (∃ n, e = fpErr n) := by
  intro l
  induction l with
  | nil => intro seen e he; simp [agentLoop] at he
  | cons a rest ih =>
      intro seen e he
      by_cases hn : a.name = ""
      · rw [agentLoop, if_pos hn] at he
        rcases List.mem_cons.mp he with rfl | hmem
        · exact Or.inl rfl
        · exact ih seen e hmem
      · rw [agentLoop, if_neg hn] at he
        rcases List.mem_append.mp he with h5 | htail
        · rcases List.mem_append.mp h5 with h4 | hc5
          · rcases List.mem_append.mp h4 with h3 | hc4
            · rcases List.mem_append.mp h3 with h2 | hc3
              · rcases List.mem_append.mp h2 with hc1 | hc2
                · exact Or.inr (Or.inl ⟨a.name, mem_if_singleton hc1⟩)
                · exact Or.inr (Or.inr (Or.inl ⟨a.name, mem_if_singleton' hc2⟩))
              · exact Or.inr (Or.inr (Or.inr (Or.inl
                  ⟨a.name, "file_permissions", mem_if_singleton' hc3⟩)))
            · exact Or.inr (Or.inr (Or.inr (Or.inl
                ⟨a.name, "workflow_participant", mem_if_singleton' hc4⟩)))
          · exact Or.inr (Or.inr (Or.inr (Or.inr ⟨a.name, mem_if_singleton' hc5⟩)))
        · exact ih _ e htail

/-- Every error of the coordinator reference check has one of its formats. -/
theorem coordRefBlock_shapes (anames : List String) (wf : VWorkflow) (e : String)
    (he : e ∈ coordRefBlock anames wf) :
    e = missingCoordErr ∨ ∃ c, e = invalidCoordErr c := by
  rcases wf with ⟨co, ph⟩
  cases co with
  | none => exact Or.inl (by simpa [coordRefBlock] using he)
  | some c =>
      exact Or.inr ⟨c, mem_if_singleton' (by simpa [coordRefBlock] using he)⟩

/-- Every duplicate-output error has the duplicate-output format. -/
theorem dupOutputBlock_shapes (agents : List VAgent) (e : String)
    (he : e ∈ dupOutputBlock agents) : ∃ ds, e = dupOutputsErr ds := by
  unfold dupOutputBlock at he
  exact ⟨dupOutputs agents, mem_if_singleton he⟩

/-- Every restricted-permission error has the restricted format. -/
theorem restrictedBlock_shapes (agents : List VAgent) (e : String)
    (he : e ∈ restrictedBlock agents) : ∃ n, e = restrictedErr n := by
  unfold restrictedBlock at he
  obtain ⟨a, -, hfe⟩ := List.mem_filterMap.mp he
  refine ⟨a.name, ?_⟩
  split at hfe
  · exact (Option.some.inj hfe).symm
  · simp at hfe

/-- Every no_projects error has the no_projects format. -/
theorem noProjectsBlock_shapes (agents : List VAgent) (e : String)
    (he : e ∈ noProjectsBlock agents) : ∃ n, e = noProjectsErr n := by
  unfold noProjectsBlock at he
  obtain ⟨a, -, hfe⟩ := List.mem_filterMap.mp he
  refine ⟨a.name, ?_⟩
  split at hfe
  · exact (Option.some.inj hfe).symm
  · simp at hfe

/-- Every coordinator-participant error has its format. -/
theorem coordWpBlock_shapes (al : List VAgent) (anames : List String)
    (wf : VWorkflow) (e : String) (he : e ∈ coordWpBlock al anames wf) :
    ∃ c, e = coordWpErr c := by
  rcases wf with ⟨co, ph⟩
  cases co with
  | none => simp [coordWpBlock] at he
  | some c =>
      refine ⟨c, ?_⟩
      have he' : e ∈ (if c ≠ "" ∧ c ∈ anames then
          (if wpGet (lastWithName al c) = some true then [coordWpErr c] else [])
        else []) := by simpa [coordWpBlock] using he
      split at he'
      · exact mem_if_singleton he'
      · simp at he'

/-- Every multi-instance error has one of its three formats. -/
theorem multiBlock_shapes : ∀ (l : List VAgent) (e : String),
    e ∈ multiBlock l →
    ∃ n, e = miMaxErr n ∨ e = miNamesErr n ∨ ∃ k m, e = miLenErr n k m := by
  intro l
  induction l with
  | nil => intro e he; simp [multiBlock] at he
  | cons a rest ih =>
      intro e he
      rw [multiBlock, List.foldr_cons] at he
      rcases List.mem_append.mp he with hb | htail
      · refine ⟨a.name, ?_⟩
        split at hb
        · rcases List.mem_append.mp hb with h1 | h2
          · exact Or.inl (mem_if_singleton' h1)
          · cases hin : a.instance_names with
            | none =>
                rw [hin] at h2
                exact Or.inr (Or.inl (by simpa using h2))
            | some ns =>
                rw [hin] at h2
                exact Or.inr (Or.inr ⟨ns.length, a.max_instances.getD 0,
                  mem_if_singleton (by simpa using h2)⟩)
        · simp at hb
      · exact ih e htail

/-- Taking one more phase prepends its truthy output to the available set. -/
theorem filterMap_take_succ_cons (p : VPhase) (rest : List VPhase) (i : Nat) :
    ((p :: rest).take (i + 1)).filterMap phaseOut =
      (phaseOut p).toList ++ (rest.take i).filterMap phaseOut := by
  rw [List.take_succ_cons]
  cases hpo : phaseOut p with
  | none => simp [List.filterMap_cons_none hpo]
  | some o => simp [List.filterMap_cons_some hpo]

/-- A required file not available before its phase produces the dependency
error. -/
theorem depErr_mem_phaseLoop (anames : List String) :
    ∀ (l : List VPhase) (outs : List String) (i : Nat) (hi : i < l.length)
      (r : String),
      r ∈ (l.get ⟨i, hi⟩).requires →
      r ∉ outs ++ (l.take i).filterMap phaseOut →
      depErr ((l.get ⟨i, hi⟩).name.getD "<unnamed>") r ∈ phaseLoop anames l outs := by
  intro l
  induction l with
  | nil => intro outs i hi; simp at hi
  | cons p rest ih =>
      intro outs i hi r hreq hnot
      cases i with
      | zero =>
          rw [phaseLoop]
          refine List.mem_append_left _ (List.mem_append_right _ ?_)
          refine List.mem_filterMap.mpr ⟨r, hreq, ?_⟩
          rw [if_neg (fun hro => hnot (List.mem_append_left _ hro))]
          rfl
      | succ i' =>
          rw [phaseLoop]
          refine List.mem_append_right _ ?_
          have hnot' : r ∉ (outs ++ (phaseOut p).toList) ++
              (rest.take i').filterMap phaseOut := by
            rw [List.append_assoc, ← filterMap_take_succ_cons p rest i']
            exact hnot
          exact ih (outs ++ (phaseOut p).toList) i' (by simpa using hi) r hreq hnot'

/-- Every error of the phase loop is a missing-field, owner or dependency
error, and a dependency error carries a phase index witnessing it. -/
theorem phaseLoop_shapes (anames : List String) :
    ∀ (l : List VPhase) (outs : List String) (e : String),
      e ∈ phaseLoop anames l outs →
      (∃ pn f, e = phaseFieldErr pn f) ∨ (∃ pn o, e = ownerNotFoundErr pn o) ∨
      (∃ pn r, e = depErr pn r ∧ ∃ i, ∃ hi : i < l.length,
        (l.get ⟨i, hi⟩).name.getD "<unnamed>" = pn ∧
        r ∈ (l.get ⟨i, hi⟩).requires ∧
        r ∉ outs ++ (l.take i).filterMap phaseOut) := by
  intro l
  induction l with
  | nil => intro outs e he; simp [phaseLoop] at he
  | cons p rest ih =>
      intro outs e he
      rw [phaseLoop] at he
      rcases List.mem_append.mp he with hb | htail
      · rcases List.mem_append.mp hb with h4 | h5
        · rcases List.mem_append.mp h4 with h3 | hc4
          · rcases List.mem_append.mp h3 with h2 | hc3
            · rcases List.mem_append.mp h2 with hc1 | hc2
              · exact Or.inl ⟨_, "name", mem_if_singleton' hc1⟩
              · exact Or.inl ⟨_, "owner", mem_if_singleton' hc2⟩
            · exact Or.inl ⟨_, "output", mem_if_singleton' hc3⟩
          · refine Or.inr (Or.inl ?_)
            cases ho : p.owner with
            | none => rw [ho] at hc4; simp at hc4
            | some o =>
                rw [ho] at hc4
                exact ⟨_, o, mem_if_singleton (by simpa using hc4)⟩
        · refine Or.inr (Or.inr ?_)
          obtain ⟨r, hr, hfe⟩ := List.mem_filterMap.mp h5
          by_cases hro : r ∈ outs
          · rw [if_pos hro] at hfe
            simp at hfe
          · rw [if_neg hro] at hfe
            refine ⟨_, r, (Option.some.inj hfe).symm, 0, by simp, rfl, hr, ?_⟩
            intro hmem
            rcases List.mem_append.mp hmem with h | h
            · exact hro h
            · simp at h
      · rcases ih (outs ++ (phaseOut p).toList) e htail with
          h1 | h2 | ⟨pn, r, he', i, hi, hnm, hrq, hni⟩
        · exact Or.inl h1
        · exact Or.inr (Or.inl h2)
        · refine Or.inr (Or.inr ⟨pn, r, he', i + 1, by simpa using hi, hnm, hrq, ?_⟩)
          rw [filterMap_take_succ_cons, ← List.append_assoc]
          exact hni

/-- C5: the validator emits the dependency error for a phase exactly when
that phase requires a file that is neither `context.md` nor the truthy
declared output of a strictly earlier phase: the condition produces the
error, and every emitted error string of that shape is so witnessed. -/
theorem validator_dependency_check (cfg : VConfig) (t : VTeam)
    (ags : List VAgent) (wf : VWorkflow) (phases : List VPhase)
    (ht : cfg.team = some t) (hn : t.hasName = true)
    (ha : t.agents = some ags) (hw : t.workflow = some wf)
    (hp : wf.phases = some phases) :
    (∀ pn r, (∃ i, ∃ hi : i < phases.length,
        (phases.get ⟨i, hi⟩).name.getD "<unnamed>" = pn ∧
        r ∈ (phases.get ⟨i, hi⟩).requires ∧
        r ∉ "context.md" :: (phases.take i).filterMap phaseOut) →
      depErr pn r ∈ validate_team_config cfg) ∧
    (∀ e, e ∈ validate_team_config cfg → (∃ pn r, e = depErr pn r) →
      ∃ pn r, e = depErr pn r ∧ ∃ i, ∃ hi : i < phases.length,
        (phases.get ⟨i, hi⟩).name.getD "<unnamed>" = pn ∧
        r ∈ (phases.get ⟨i, hi⟩).requires ∧
        r ∉ "context.md" :: (phases.take i).filterMap phaseOut) := by
  have hbody := validate_eq_body cfg t ags wf ht hn ha hw
  constructor
  · intro pn r ⟨i, hi, hnm, hrq, hni⟩
    rw [hbody]
    have hmem : depErr pn r ∈ phasesBlock (ags.map (fun a => a.name)) wf := by
      unfold phasesBlock
      rw [hp]
      have := depErr_mem_phaseLoop (ags.map (fun a => a.name)) phases
        ["context.md"] i hi r hrq hni
      rw [hnm] at this
      exact this
    unfold validateBody
    exact List.mem_append_left _ (List.mem_append_left _
      (List.mem_append_left _ (List.mem_append_left _
        (List.mem_append_left _ (List.mem_append_right _ hmem)))))
  · intro e hmem hdep
    obtain ⟨pn, r, he⟩ := hdep
    rw [hbody] at hmem
    unfold validateBody at hmem
    rcases List.mem_append.mp hmem with h7 | hH
    · rcases List.mem_append.mp h7 with h6 | hG
      · rcases List.mem_append.mp h6 with h5 | hF
        · rcases List.mem_append.mp h5 with h4 | hE
          · rcases List.mem_append.mp h4 with h3 | hD
            · rcases List.mem_append.mp h3 with h2 | hC
              · rcases List.mem_append.mp h2 with hA | hB
                · rcases agentLoop_shapes ags [] e hA with
                    h | ⟨n, h⟩ | ⟨n, h⟩ | ⟨n, f, h⟩ | ⟨n, h⟩
                  · rw [he] at h; exact absurd h (depErr_ne_missingNameErr pn r)
                  · rw [he] at h; exact absurd h (depErr_ne_dupNameErr pn r n)
                  · rw [he] at h; exact absurd h (depErr_ne_invalidNameErr pn r n)
                  · rw [he] at h; exact absurd h (depErr_ne_agentFieldErr pn r n f)
                  · rw [he] at h; exact absurd h (depErr_ne_fpErr pn r n)
                · rcases coordRefBlock_shapes _ _ e hB with h | ⟨c, h⟩
                  · rw [he] at h; exact absurd h (depErr_ne_missingCoordErr pn r)
                  · rw [he] at h; exact absurd h (depErr_ne_invalidCoordErr pn r c)
              · have hC' : e ∈ phaseLoop (ags.map (fun a => a.name)) phases
                    ["context.md"] := by
                  unfold phasesBlock at hC
                  rw [hp] at hC
                  exact hC
                rcases phaseLoop_shapes _ phases _ e hC' with
                  ⟨q, f, h⟩ | ⟨q, o, h⟩ | ⟨pn', r', h, i, hi, hnm, hrq, hni⟩
                · rw [he] at h; exact absurd h (depErr_ne_phaseFieldErr pn r q f)
                · rw [he] at h; exact absurd h (depErr_ne_ownerNotFoundErr pn r q o)
                · exact ⟨pn', r', h, i, hi, hnm, hrq, hni⟩
            · obtain ⟨ds, h⟩ := dupOutputBlock_shapes _ e hD
              rw [he] at h
              exact absurd h (depErr_ne_dupOutputsErr pn r ds)
          · obtain ⟨n, h⟩ := restrictedBlock_shapes _ e hE
            rw [he] at h
            exact absurd h (depErr_ne_restrictedErr pn r n)
        · obtain ⟨n, h⟩ := noProjectsBlock_shapes _ e hF
          rw [he] at h
          exact absurd h (depErr_ne_noProjectsErr pn r n)
      · obtain ⟨c, h⟩ := coordWpBlock_shapes _ _ _ e hG
        rw [he] at h
        exact absurd h (depErr_ne_coordWpErr pn r c)
    · obtain ⟨n, h | h | ⟨k, m, h⟩⟩ := multiBlock_shapes _ e hH
      · rw [he] at h; exact absurd h (depErr_ne_miMaxErr pn r n)
      · rw [he] at h; exact absurd h (depErr_ne_miNamesErr pn r n)
      · rw [he] at h; exact absurd h (depErr_ne_miLenErr pn r n k m)

/-- C5 witness: a concrete config with a phase requiring a file produced by
no earlier phase, and the emitted dependency error. -/
theorem validator_dependency_check_witness :
    TeamValidator.depErr "B" "zzz.md" ∈ TeamValidator.validate_team_config
      ⟨some ⟨true,
        some [⟨"ana", some (some "permissive"), some (some true), none, false, none, none⟩],
        some ⟨some "ana",
          some [⟨some "A", some "ana", some "a.md", []⟩,
                ⟨some "B", some "ana", some "b.md", ["zzz.md"]⟩]⟩⟩⟩ := by
  have h := validator_dependency_check
    ⟨some ⟨true,
      some [⟨"ana", some (some "permissive"), some (some true), none, false, none, none⟩],
      some ⟨some "ana",
        some [⟨some "A", some "ana", some "a.md", []⟩,
              ⟨some "B", some "ana", some "b.md", ["zzz.md"]⟩]⟩⟩⟩
    ⟨true,
      some [⟨"ana", some (some "permissive"), some (some true), none, false, none, none⟩],
      some ⟨some "ana",
        some [⟨some "A", some "ana", some "a.md", []⟩,
              ⟨some "B", some "ana", some "b.md", ["zzz.md"]⟩]⟩⟩
    [⟨"ana", some (some "permissive"), some (some true), none, false, none, none⟩]
    ⟨some "ana",
      some [⟨some "A", some "ana", some "a.md", []⟩,
            ⟨some "B", some "ana", some "b.md", ["zzz.md"]⟩]⟩
    [⟨some "A", some "ana", some "a.md", []⟩,
     ⟨some "B", some "ana", some "b.md", ["zzz.md"]⟩]
    rfl rfl rfl rfl rfl
  exact h.1 "B" "zzz.md" ⟨1, by decide, by decide, by decide, by decide⟩

end TeamValidator

namespace StatusHelper

/-- One agent entry as project-status-helper.py reads it: `agent['name']`
and `agent.get('output_file')` (absent and null both read as `None`). -/
structure SAgent where
  name : String
  output_file : Option String
deriving DecidableEq, Inhabited

/-- The loaded team config: `config['team']['workflow']['coordinator']` and
`config['team']['agents']`; `none` models the `KeyError` paths, which the
`except` clause turns into a `None` result. -/
structure SConfig where
  coordinator : Option String
  agents : Option (List SAgent)
deriving DecidableEq

/-- `get_coordinator_file` of project-status-helper.py: `None` unless the
`.team` file, the config file, the parse, the coordinator lookup and the
first matching agent all succeed; the first agent whose name equals the
coordinator name supplies `output_file`. -/
def get_coordinator_file (teamFileExists configExists : Bool)
    (config : Option SConfig) : Option String :=
  if teamFileExists = false then none
  else if configExists = false then none
  else
    match config with
    | none => none
    | some cfg =>
        match cfg.coordinator, cfg.agents with
        | some cname, some ags =>
            match ags.find? (fun a => a.name = cname) with
            | some agent => agent.output_file
            | none => none
        | _, _ => none

/-- Python `needle in haystack` on character lists. -/
def hasSub : List Char → List Char → Bool
  | [], needle => needle.isPrefixOf []
  | c :: rest, needle => needle.isPrefixOf (c :: rest) || hasSub rest needle

/-- `re.search(r'<!-- PROJECT:STATUS:[^\n]+', content)`: the first position
where the literal prefix is followed by at least one non-newline character,
returning the whole match. -/
def scanStatusMarker : List Char → Option (List Char)
  | [] => none
  | c :: rest =>
      if ("<!-- PROJECT:STATUS:".data).isPrefixOf (c :: rest) then
        let after := (c :: rest).drop ("<!-- PROJECT:STATUS:".data).length
        let run := after.takeWhile (fun ch => ch ≠ '\n')
        if run ≠ [] then some ("<!-- PROJECT:STATUS:".data ++ run)
        else scanStatusMarker rest
      else scanStatusMarker rest

/-- `re.search(r'<!-- PROJECT:STATUS:DELEGATED:([^:]+):([^:]+)', content)`:
the two greedy colon-free groups of the first matching position. -/
def scanDelegated : List Char → Option (List Char × List Char)
  | [] => none
  | c :: rest =>
      if ("<!-- PROJECT:STATUS:DELEGATED:".data).isPrefixOf (c :: rest) then
        let after := (c :: rest).drop ("<!-- PROJECT:STATUS:DELEGATED:".data).length
        let g1 := after.takeWhile (fun ch => ch ≠ ':')
        match g1, after.drop g1.length with
        | _ :: _, ':' :: after2 =>
            let g2 := after2.takeWhile (fun ch => ch ≠ ':')
            if g2 ≠ [] then some (g1, g2) else scanDelegated rest
        | _, _ => scanDelegated rest
      else scanDelegated rest

/-- A regex word character, `[a-zA-Z0-9_]`. -/
def isWordChar (c : Char) : Bool :=
  ('a' ≤ c && c ≤ 'z') || ('A' ≤ c && c ≤ 'Z') || ('0' ≤ c && c ≤ '9') || c = '_'

/-- Case-insensitive match of a lowercase pattern at the head of the text
(`re.IGNORECASE` on an ASCII literal). -/
def ciIsPre : List Char → List Char → Bool
  | [], _ => true
  | _, [] => false
  | p :: ps, c :: cs => (Char.toLower c = p) && ciIsPre ps cs

/-- The alternation `(COMPLETE|CLOSED|DEPLOYED|PRODUCTION.READY)` under
IGNORECASE at the head of the text: the matched length, if any.  The `.` of
`PRODUCTION.READY` matches any character except a newline. -/
def kwMatchAt (l : List Char) : Option Nat :=
  if ciIsPre "complete".data l then some 8
  else if ciIsPre "closed".data l then some 6
  else if ciIsPre "deployed".data l then some 8
  else if ciIsPre "production".data l &&
      (match l.drop 10 with
       | d :: rest2 => d ≠ '\n' && ciIsPre "ready".data rest2
       | [] => false) then some 16
  else none

/-- Scan the text after the colon for `\b(KW)\b`, where `.*` before the
keyword cannot cross a newline; `prevWord` tells whether the previous
character was a word character (for the left `\b`). -/
def kwScan : List Char → Bool → Bool
  | [], _ => false
  | c :: rest, prevWord =>
      if c = '\n' then false
      else
        ((!prevWord) &&
          (match kwMatchAt (c :: rest) with
           | some n =>
               (match (c :: rest).drop n with
                | [] => true
                | d :: _ => !isWordChar d)
           | none => false)) ||
        kwScan rest (isWordChar c)

/-- `\*?\*?:` — up to two literal stars, then a colon; the remainder. -/
def starsColon : List Char → Option (List Char)
  | '*' :: '*' :: ':' :: rest => some rest
  | '*' :: ':' :: rest => some rest
  | ':' :: rest => some rest
  | _ => none

/-- One-position match of
`\*\*(Status|Phase)\*?\*?:.*\b(COMPLETE|CLOSED|DEPLOYED|PRODUCTION.READY)\b`
under IGNORECASE. -/
def statusLineAt (l : List Char) : Bool :=
  if ("**".data).isPrefixOf l then
    let after2 := l.drop 2
    (if ciIsPre "status".data after2 then
      (match starsColon (after2.drop 6) with
       | some rest => kwScan rest false
       | none => false)
     else false) ||
    (if ciIsPre "phase".data after2 then
      (match starsColon (after2.drop 5) with
       | some rest => kwScan rest false
       | none => false)
     else false)
  else false

/-- `re.search` of the content-based completion pattern (line 81). -/
def statusLineSearch : List Char → Bool
  | [] => false
  | c :: rest => statusLineAt (c :: rest) || statusLineSearch rest

/-- `detect_status` of project-status-helper.py (lines 58-84): the status
text and the advisory note. -/
def detect_status (content : String) : String × String :=
  if hasSub content.data "<!-- PROJECT:STATUS:COMPLETE".data then
    ("COMPLETE (structured marker)",
      match scanStatusMarker content.data with
      | some m => String.mk m
      | none => "")
  else if hasSub content.data "<!-- PROJECT:STATUS:CLOSED".data then
    ("CLOSED (structured marker)", "")
  else if hasSub content.data "<!-- PROJECT:STATUS:ARCHIVED".data then
    ("ARCHIVED (structured marker)", "")
  else if hasSub content.data "<!-- PROJECT:STATUS:DELEGATED".data then
    (match scanDelegated content.data with
     | some (g1, g2) =>
        ("DELEGATED to " ++ String.mk g1 ++ " (" ++ String.mk g2 ++ ")", "")
     | none => ("DELEGATED", ""))
  else if hasSub content.data "<!-- PROJECT:STATUS:PENDING".data then
    ("PENDING (awaiting assignment)", "")
  else if statusLineSearch content.data then
    ("COMPLETE (detected from content)",
      "Consider adding structured marker: `<!-- PROJECT:STATUS:COMPLETE:YYYY-MM-DD -->`")
  else ("ACTIVE", "")

/-- The observable outcome of one status-reporter run: the exit code and
the `**Status:** ...` line, when one is printed. -/
structure StatusRun where
  exitCode : Nat
  statusLine : Option String
deriving DecidableEq

/-- `main` of project-status-helper.py from the project-existence check on:
the boolean arguments are the filesystem facts the script queries and
`content` is the coordinator file's text. -/
def main (projectExists teamFileExists configExists : Bool)
    (config : Option SConfig) (coordFileExists : Bool) (content : String) :
    StatusRun :=
  if projectExists = false then ⟨1, none⟩
  else
    match get_coordinator_file teamFileExists configExists config with
    | none => ⟨1, none⟩
    | some coord_file =>
        if coord_file = "" then ⟨1, none⟩
        else if coordFileExists = false then
          ⟨0, some ("**Status:** PENDING (no " ++ coord_file ++ ")")⟩
        else ⟨0, some ("**Status:** " ++ (detect_status content).1)⟩

/-- C8: the status reporter exits 1 exactly when the project directory is
missing or the coordinator output filename cannot be determined (falsy
result of `get_coordinator_file`); otherwise it exits 0, and a resolved but
absent coordinator file prints the PENDING status with exit code 0. -/
theorem status_exit_codes (projectExists teamFileExists configExists : Bool)
    (config : Option SConfig) (coordFileExists : Bool) (content : String) :
    ((main projectExists teamFileExists configExists config coordFileExists
        content).exitCode = 0 ∨
     (main projectExists teamFileExists configExists config coordFileExists
        content).exitCode = 1) ∧
    ((main projectExists teamFileExists configExists config coordFileExists
        content).exitCode = 1 ↔
      (projectExists = false ∨
       truthy (get_coordinator_file teamFileExists configExists config) = false)) ∧
    (∀ f, projectExists = true →
      get_coordinator_file teamFileExists configExists config = some f →
      f ≠ "" → coordFileExists = false →
      (main projectExists teamFileExists configExists config coordFileExists
        content).exitCode = 0 ∧
      (main projectExists teamFileExists configExists config coordFileExists
        content).statusLine = some ("**Status:** PENDING (no " ++ f ++ ")")) := by
  by_cases hp : projectExists = false
  · have hm : main projectExists teamFileExists configExists config
        coordFileExists content = ⟨1, none⟩ := by
      unfold main
      rw [if_pos hp]
    rw [hm]
    refine ⟨Or.inr rfl, by simp [hp], ?_⟩
    intro f hpt
    rw [hp] at hpt
    exact absurd hpt (by decide)
  · cases hg : get_coordinator_file teamFileExists configExists config with
    | none =>
        have hm : main projectExists teamFileExists configExists config
            coordFileExists content = ⟨1, none⟩ := by
          unfold main
          rw [if_neg hp, hg]
        rw [hm]
        refine ⟨Or.inr rfl, by simp [truthy], ?_⟩
        intro f _ hgf
        exact absurd hgf (by simp)
    | some f =>
        by_cases hf : f = ""
        · have hm : main projectExists teamFileExists configExists config
              coordFileExists content = ⟨1, none⟩ := by
            unfold main
            rw [if_neg hp, hg]
            show (if f = "" then (⟨1, none⟩ : StatusRun)
              else if coordFileExists = false then
                ⟨0, some ("**Status:** PENDING (no " ++ f ++ ")")⟩
              else ⟨0, some ("**Status:** " ++ (detect_status content).1)⟩) = ⟨1, none⟩
            rw [if_pos hf]
          rw [hm]
          refine ⟨Or.inr rfl, by simp [truthy, hf], ?_⟩
          intro f' _ hgf hf'
          exact absurd (show f' = "" by rw [← Option.some.inj hgf]; exact hf) hf'
        · by_cases hc : coordFileExists = false
          · have hm : main projectExists teamFileExists configExists config
                coordFileExists content =
                ⟨0, some ("**Status:** PENDING (no " ++ f ++ ")")⟩ := by
              unfold main
              rw [if_neg hp, hg]
              show (if f = "" then (⟨1, none⟩ : StatusRun)
                else if coordFileExists = false then
                  ⟨0, some ("**Status:** PENDING (no " ++ f ++ ")")⟩
                else ⟨0, some ("**Status:** " ++ (detect_status content).1)⟩) = _
              rw [if_neg hf, if_pos hc]
            rw [hm]
            refine ⟨Or.inl rfl, by simp [truthy, hp, hf], ?_⟩
            intro f' _ hgf _ _
            rw [← Option.some.inj hgf]
            exact ⟨rfl, rfl⟩
          · have hm : main projectExists teamFileExists configExists config
                coordFileExists content =
                ⟨0, some ("**Status:** " ++ (detect_status content).1)⟩ := by
              unfold main
              rw [if_neg hp, hg]
              show (if f = "" then (⟨1, none⟩ : StatusRun)
                else if coordFileExists = false then
                  ⟨0, some ("**Status:** PENDING (no " ++ f ++ ")")⟩
                else ⟨0, some ("**Status:** " ++ (detect_status content).1)⟩) = _
              rw [if_neg hf, if_neg hc]
            rw [hm]
            refine ⟨Or.inl rfl, by simp [truthy, hp, hf], ?_⟩
            intro f' _ _ _ hcf
            exact absurd hcf hc

/-- C8 witness: a resolved project and config whose coordinator file is
absent prints the PENDING status and exits 0; a missing project exits 1. -/
theorem status_exit_codes_witness :
    (StatusHelper.main true true true (some ⟨some "dan", some [⟨"dan", some "notes.md"⟩]⟩)
      false "").exitCode = 0 ∧
    (StatusHelper.main true true true (some ⟨some "dan", some [⟨"dan", some "notes.md"⟩]⟩)
      false "").statusLine = some "**Status:** PENDING (no notes.md)" ∧
    (StatusHelper.main false true true (some ⟨some "dan", some [⟨"dan", some "notes.md"⟩]⟩)
      true "").exitCode = 1 := by
  have h := (status_exit_codes true true true
    (some ⟨some "dan", some [⟨"dan", some "notes.md"⟩]⟩) false "").2.2
    "notes.md" rfl (by decide) (by decide) rfl
  have h2 := (status_exit_codes false true true
    (some ⟨some "dan", some [⟨"dan", some "notes.md"⟩]⟩) true "").2.1
  exact ⟨h.1, h.2, h2.mpr (Or.inl rfl)⟩

/-- C2 counterexample: the claimed two-outcome detection fails on the code:
a structured COMPLETE marker yields a COMPLETE status derived from the file
content (so the core does invent completion statuses), and a
`## Current Assignment` section with an `**Agent**:` line yields ACTIVE,
not a DELEGATED status. -/
theorem status_two_outcomes_cex :
    (StatusHelper.detect_status "<!-- PROJECT:STATUS:COMPLETE:2026-01-01 -->").1
      = "COMPLETE (structured marker)" ∧
    (StatusHelper.detect_status "<!-- PROJECT:STATUS:COMPLETE:2026-01-01 -->").1
      ≠ "PENDING (no assignment)" ∧
    (StatusHelper.detect_status "## Current Assignment\n**Agent**: dan").1
      = "ACTIVE" := by
  decide

/-- The five structured markers, as character lists. -/
def completeMark : List Char := "<!-- PROJECT:STATUS:COMPLETE".data

def closedMark : List Char := "<!-- PROJECT:STATUS:CLOSED".data

def archivedMark : List Char := "<!-- PROJECT:STATUS:ARCHIVED".data

def delegatedMark : List Char := "<!-- PROJECT:STATUS:DELEGATED".data

def pendingMark : List Char := "<!-- PROJECT:STATUS:PENDING".data

/-- The substring scanner agrees with list-infix containment. -/
theorem hasSub_iff (needle : List Char) :
    ∀ hay : List Char, hasSub hay needle = true ↔ needle <:+: hay := by
  intro hay
  induction hay with
  | nil =>
      rw [hasSub]
      cases needle <;> simp [List.isPrefixOf]
  | cons c rest ih =>
      rw [hasSub]
      rw [Bool.or_eq_true, List.isPrefixOf_iff_prefix, ih]
      constructor
      · rintro (h | h)
        · exact h.isInfix
        · exact h.trans (List.suffix_cons c rest).isInfix
      · intro h
        rcases List.infix_cons_iff.mp h with h | h
        · exact Or.inl h
        · exact Or.inr h

/-- C2 (amended): the status reporter derives the status from the file
content by ordered checks: the structured markers COMPLETE, CLOSED,
ARCHIVED, DELEGATED and PENDING (as substrings, in that priority), then a
content-based `**Status/Phase**: ... COMPLETE/CLOSED/DEPLOYED/PRODUCTION
READY` heuristic, and ACTIVE otherwise; DELEGATED comes from the marker's
`:agent:phase` groups, not from a `## Current Assignment` section. -/
theorem status_detection_amended (content : String) :
    ((completeMark <:+: content.data) →
      (detect_status content).1 = "COMPLETE (structured marker)") ∧
    (¬ (completeMark <:+: content.data) → (closedMark <:+: content.data) →
      (detect_status content).1 = "CLOSED (structured marker)") ∧
    (¬ (completeMark <:+: content.data) → ¬ (closedMark <:+: content.data) →
      (archivedMark <:+: content.data) →
      (detect_status content).1 = "ARCHIVED (structured marker)") ∧
    (¬ (completeMark <:+: content.data) → ¬ (closedMark <:+: content.data) →
      ¬ (archivedMark <:+: content.data) → (delegatedMark <:+: content.data) →
      (detect_status content).1 = "DELEGATED" ∨
      ∃ g1 g2 : String,
        (detect_status content).1 = "DELEGATED to " ++ g1 ++ " (" ++ g2 ++ ")") ∧
    (¬ (completeMark <:+: content.data) → ¬ (closedMark <:+: content.data) →
      ¬ (archivedMark <:+: content.data) → ¬ (delegatedMark <:+: content.data) →
      (pendingMark <:+: content.data) →
      (detect_status content).1 = "PENDING (awaiting assignment)") ∧
    (¬ (completeMark <:+: content.data) → ¬ (closedMark <:+: content.data) →
      ¬ (archivedMark <:+: content.data) → ¬ (delegatedMark <:+: content.data) →
      ¬ (pendingMark <:+: content.data) →
      statusLineSearch content.data = true →
      (detect_status content).1 = "COMPLETE (detected from content)") ∧
    (¬ (completeMark <:+: content.data) → ¬ (closedMark <:+: content.data) →
      ¬ (archivedMark <:+: content.data) → ¬ (delegatedMark <:+: content.data) →
      ¬ (pendingMark <:+: content.data) →
      statusLineSearch content.data = false →
      (detect_status content).1 = "ACTIVE") := by
  have hC : hasSub content.data "<!-- PROJECT:STATUS:COMPLETE".data = true ↔
      completeMark <:+: content.data := hasSub_iff completeMark content.data
  have hCL : hasSub content.data "<!-- PROJECT:STATUS:CLOSED".data = true ↔
      closedMark <:+: content.data := hasSub_iff closedMark content.data
  have hAR : hasSub content.data "<!-- PROJECT:STATUS:ARCHIVED".data = true ↔
      archivedMark <:+: content.data := hasSub_iff archivedMark content.data
  have hDG : hasSub content.data "<!-- PROJECT:STATUS:DELEGATED".data = true ↔
      delegatedMark <:+: content.data := hasSub_iff delegatedMark content.data
  have hPD : hasSub content.data "<!-- PROJECT:STATUS:PENDING".data = true ↔
      pendingMark <:+: content.data := hasSub_iff pendingMark content.data
  refine ⟨?_, ?_, ?_, ?_, ?_, ?_, ?_⟩
  · intro h
    unfold detect_status
    rw [if_pos (hC.mpr h)]
  · intro h1 h2
    unfold detect_status
    rw [if_neg (fun hh => h1 (hC.mp hh)), if_pos (hCL.mpr h2)]
  · intro h1 h2 h3
    unfold detect_status
    rw [if_neg (fun hh => h1 (hC.mp hh)), if_neg (fun hh => h2 (hCL.mp hh)),
      if_pos (hAR.mpr h3)]
  · intro h1 h2 h3 h4
    unfold detect_status
    rw [if_neg (fun hh => h1 (hC.mp hh)), if_neg (fun hh => h2 (hCL.mp hh)),
      if_neg (fun hh => h3 (hAR.mp hh)), if_pos (hDG.mpr h4)]
    cases hsd : scanDelegated content.data with
    | none => exact Or.inl rfl
    | some pr =>
        obtain ⟨g1, g2⟩ := pr
        exact Or.inr ⟨String.mk g1, String.mk g2, rfl⟩
  · intro h1 h2 h3 h4 h5
    unfold detect_status
    rw [if_neg (fun hh => h1 (hC.mp hh)), if_neg (fun hh => h2 (hCL.mp hh)),
      if_neg (fun hh => h3 (hAR.mp hh)), if_neg (fun hh => h4 (hDG.mp hh)),
      if_pos (hPD.mpr h5)]
  · intro h1 h2 h3 h4 h5 h6
    unfold detect_status
    rw [if_neg (fun hh => h1 (hC.mp hh)), if_neg (fun hh => h2 (hCL.mp hh)),
      if_neg (fun hh => h3 (hAR.mp hh)), if_neg (fun hh => h4 (hDG.mp hh)),
      if_neg (fun hh => h5 (hPD.mp hh)), if_pos h6]
  · intro h1 h2 h3 h4 h5 h6
    unfold detect_status
    rw [if_neg (fun hh => h1 (hC.mp hh)), if_neg (fun hh => h2 (hCL.mp hh)),
      if_neg (fun hh => h3 (hAR.mp hh)), if_neg (fun hh => h4 (hDG.mp hh)),
      if_neg (fun hh => h5 (hPD.mp hh)), if_neg (by simp [h6])]

/-- C2 witness: the amended detection applied to concrete contents. -/
theorem status_detection_amended_witness :
    (StatusHelper.detect_status "just notes").1 = "ACTIVE" ∧
    (StatusHelper.detect_status "<!-- PROJECT:STATUS:CLOSED -->").1
      = "CLOSED (structured marker)" := by
  have h1 := (status_detection_amended "just notes").2.2.2.2.2.2
    (by decide) (by decide) (by decide) (by decide) (by decide) (by decide)
  have h2 := (status_detection_amended "<!-- PROJECT:STATUS:CLOSED -->").2.1
    (by decide) (by decide)
  exact ⟨h1, h2⟩

end StatusHelper

namespace SessionManagerModel

/-- The mutable state the transcript service's `SessionManager` keeps for
its per-project cache managers: the `LRUCache(maxsize=...)` from
`cachetools`, modelled as its key sequence in least-recently-used-first
order (the stored `CacheManager` values are determined by their keys). -/
structure LRUState where
  maxsize : Nat
  keys : List String
deriving DecidableEq

/-- The eviction loop of `Cache.__setitem__`: pop least-recently-used
entries until one more unit-sized item fits.  (With `maxsize = 0` the
Python call raises instead; the claim's bound is fixed at construction and
positive.) -/
def evictFor (maxsize : Nat) : List String → List String
  | [] => []
  | k :: rest =>
      if maxsize < (k :: rest).length + 1 then evictFor maxsize rest
      else k :: rest

/-- `cache[key] = CacheManager(...)` for a key not in the cache: evict,
then insert at the most-recently-used end. -/
def lruSet (st : LRUState) (k : String) : LRUState :=
  ⟨st.maxsize, evictFor st.maxsize st.keys ++ [k]⟩

/-- `cache[key]` on a present key: `LRUCache.__getitem__` moves the key to
the most-recently-used end. -/
def lruTouch (st : LRUState) (k : String) : LRUState :=
  ⟨st.maxsize, st.keys.erase k ++ [k]⟩

/-- One `_get_cache_manager` call (lines 57-72 of session_manager.py):
under the lock, `if cache_key not in self.cache_managers:` insert, then
`return self.cache_managers[cache_key]`. -/
def get_cache_manager_step (st : LRUState) (k : String) : LRUState :=
  let st1 := if k ∈ st.keys then st else lruSet st k
  lruTouch st1 k

/-- A sequence of `_get_cache_manager` calls with arbitrary project paths. -/
def runCalls : LRUState → List String → LRUState
  | st, [] => st
  | st, k :: rest => runCalls (get_cache_manager_step st k) rest

/-- The lock/map events of one `_get_cache_manager` call: the `with
self.cache_lock:` block encloses the membership test, the optional insert
and the read that is returned. -/
inductive CacheEvent where
  | lockAcquire : CacheEvent
  | mapLookup : CacheEvent
  | mapInsert : CacheEvent
  | lockRelease : CacheEvent
deriving DecidableEq

/-- The event trace of one call, by whether the key was already cached. -/
def get_cache_manager_trace (hit : Bool) : List CacheEvent :=
  [.lockAcquire, .mapLookup] ++ (if hit then [] else [.mapInsert]) ++
    [.mapLookup, .lockRelease]

/-- Every map access in the trace happens at positive lock depth. -/
def lockedThroughout : List CacheEvent → Nat → Bool
  | [], _ => true
  | .lockAcquire :: rest, d => lockedThroughout rest (d + 1)
  | .lockRelease :: rest, d => lockedThroughout rest (d - 1)
  | .mapLookup :: rest, d => (0 < d : Bool) && lockedThroughout rest d
  | .mapInsert :: rest, d => (0 < d : Bool) && lockedThroughout rest d

/-- Eviction leaves room for one more entry (given a positive bound). -/
theorem evictFor_length (maxsize : Nat) (hm : 0 < maxsize) :
    ∀ keys : List String, (evictFor maxsize keys).length + 1 ≤ maxsize := by
  intro keys
  induction keys with
  | nil => simpa [evictFor] using hm
  | cons k rest ih =>
      rw [evictFor]
      by_cases h : maxsize < (k :: rest).length + 1
      · rw [if_pos h]
        exact ih
      · rw [if_neg h]
        omega

/-- One call preserves the size bound and the configured maxsize. -/
theorem step_preserves (st : LRUState) (k : String) (hm : 0 < st.maxsize)
    (h : st.keys.length ≤ st.maxsize) :
    (get_cache_manager_step st k).keys.length ≤ st.maxsize ∧
    (get_cache_manager_step st k).maxsize = st.maxsize := by
  unfold get_cache_manager_step lruTouch lruSet
  by_cases hk : k ∈ st.keys
  · rw [if_pos hk]
    refine ⟨?_, rfl⟩
    simp only [List.length_append, List.length_singleton]
    rw [List.length_erase_of_mem hk]
    have : 0 < st.keys.length := List.length_pos.mpr (List.ne_nil_of_mem hk)
    omega
  · rw [if_neg hk]
    refine ⟨?_, rfl⟩
    simp only [List.length_append, List.length_singleton]
    have he := evictFor_length st.maxsize hm st.keys
    have hkm : k ∈ evictFor st.maxsize st.keys ++ [k] :=
      List.mem_append_right _ (List.mem_singleton.mpr rfl)
    rw [List.length_erase_of_mem hkm]
    simp only [List.length_append, List.length_singleton]
    omega

/-- C9: starting from the constructed state, any sequence of
`_get_cache_manager` calls keeps the cache-manager map within the
`max_cache_managers` bound fixed at construction, and every map access of a
call happens while the single cache lock is held. -/
theorem cache_manager_bounded (m : Nat) (hm : 0 < m) (calls : List String) :
    (runCalls ⟨m, []⟩ calls).keys.length ≤ m ∧
    (runCalls ⟨m, []⟩ calls).maxsize = m ∧
    (∀ hit, lockedThroughout (get_cache_manager_trace hit) 0 = true) := by
  have main : ∀ (calls : List String) (st : LRUState), st.maxsize = m →
      st.keys.length ≤ m → (runCalls st calls).keys.length ≤ m ∧
      (runCalls st calls).maxsize = m := by
    intro calls
    induction calls with
    | nil => intro st h1 h2; exact ⟨h2, h1⟩
    | cons k rest ih =>
        intro st h1 h2
        have hs := step_preserves st k (h1 ▸ hm) (h1 ▸ h2)
        rw [runCalls]
        exact ih (get_cache_manager_step st k) (hs.2.trans h1) (h1 ▸ hs.1)
  refine ⟨(main calls ⟨m, []⟩ rfl (by simp)).1, (main calls ⟨m, []⟩ rfl (by simp)).2, ?_⟩
  intro hit
  cases hit <;> decide

/-- C9 witness: the bound and the lock discipline at the default
construction size 10 on a concrete call sequence that revisits and
overflows a smaller cache too. -/
theorem cache_manager_bounded_witness :
    (SessionManagerModel.runCalls ⟨10, []⟩ ["a", "b", "a", "c"]).keys.length ≤ 10 ∧
    SessionManagerModel.lockedThroughout
      (SessionManagerModel.get_cache_manager_trace false) 0 = true := by
  have h := cache_manager_bounded 10 (by decide) ["a", "b", "a", "c"]
  exact ⟨h.1, h.2.2 false⟩

end SessionManagerModel
